import Mathlib

set_option allowUnsafeReducibility true
attribute [semireducible] Rat.add Rat.mul Rat.inv Rat.sub Rat.ofScientific

/-!
Verification development for the PDF page-geometry and price-rewriting core
of the lighting-catalog repository (src/pdf_processor.py).

Modelling conventions (shallow embedding):
* A raster image is a list of pixel rows; a pixel is an RGB triple of naturals.
  PIL's crop pads out-of-box reads with black, which the total accessor pxl
  reproduces via its default pixel (0, 0, 0).
* Python floats are modelled by exact rationals; float literals such as 0.08,
  0.35 or 0.005 are read at their decimal value.  Python int() truncation and
  round() (round-half-to-even) are modelled by pyInt and pyRound.
* fitz (PyMuPDF) objects are modelled structurally: a document is the list of
  its pages, a page carries its rect size, vector drawing items, text spans
  and the 150-dpi render; the AI box service of ai_extractor.find_dim_boxes is
  an external call, so its result list is an input of the orchestrator model.
* Division by zero in the rational model yields 0, which coincides with the
  observable behaviour of the corresponding degenerate comparisons in the
  source (a nan compares false) and is unreachable on real pages.
-/

/-- An RGB pixel. -/
abbrev Pixel := ℕ × ℕ × ℕ

/-- A raster image: a list of pixel rows (PIL images are rectangular). -/
abbrev Img := List (List Pixel)

/-- Height of an image (number of pixel rows). -/
def height (img : Img) : ℕ := img.length

/-- Width of an image (length of its first row; 0 for an empty image). -/
def width : Img → ℕ
  | [] => 0
  | r :: _ => r.length

/-- Total pixel accessor; out-of-bounds reads give black, matching PIL's
zero padding of crops that reach outside the source image. -/
def pxl (img : Img) (y x : ℕ) : Pixel := (img.getD y []).getD x (0, 0, 0)

/-- Signed-coordinate pixel accessor (negative coordinates read black). -/
def pxlZ (img : Img) (y x : ℤ) : Pixel :=
  if 0 ≤ y ∧ 0 ≤ x then pxl img y.toNat x.toNat else (0, 0, 0)

/-- PIL Image.crop with box (left, upper, right, lower): the result has
exactly the requested size, reads inside the source where defined and black
elsewhere. -/
def cropZ (left upper right lower : ℤ) (img : Img) : Img :=
  (List.range (lower - upper).toNat).map fun (yi : ℕ) =>
    (List.range (right - left).toNat).map fun (xi : ℕ) =>
      pxlZ img (upper + (yi : ℤ)) (left + (xi : ℤ))

/-- Python int(): truncation of a rational toward zero. -/
def pyInt (q : ℚ) : ℤ := if 0 ≤ q then ⌊q⌋ else ⌈q⌉

/-- Python round() on a rational: round half to even. -/
def pyRound (q : ℚ) : ℤ :=
  if q - ⌊q⌋ < 1/2 then ⌊q⌋
  else if 1/2 < q - ⌊q⌋ then ⌊q⌋ + 1
  else if ⌊q⌋ % 2 = 0 then ⌊q⌋ else ⌊q⌋ + 1

/-- Python range(start, stop, step) for a positive step, as a list of ints. -/
def pyRangeZ (start stop step : ℤ) : List ℤ :=
  (List.range (((stop - start).toNat + step.toNat - 1) / step.toNat)).map
    fun i => start + step * i

/-- Python range(start, stop, -1): start, start-1, ..., stop+1. -/
def pyRangeDown (start stop : ℤ) : List ℤ :=
  (List.range (start - stop).toNat).map fun i => start - i

/-- Python str.strip(): drop whitespace from both ends. -/
def pyStrip (s : List Char) : List Char :=
  ((s.dropWhile Char.isWhitespace).reverse.dropWhile Char.isWhitespace).reverse

/-- Python str.isalpha(): nonempty and all alphabetic. -/
def pyIsAlpha (s : List Char) : Bool := !s.isEmpty && s.all Char.isAlpha

/-- Python str.upper() (ASCII range suffices for the texts involved). -/
def upperL (s : List Char) : List Char := s.map Char.toUpper

/-- Does the list start with the given literal? (Python re literal match.) -/
def litPre : List Char → List Char → Bool
  | [], _ => true
  | _ :: _, [] => false
  | a :: as, b :: bs => a = b && litPre as bs

/-- Python substring containment (the in operator on str). -/
def containsSub (needle : List Char) : List Char → Bool
  | [] => litPre needle []
  | c :: t => litPre needle (c :: t) || containsSub needle t

/-- Numeric value of a list of decimal digit characters. -/
def digitsVal (l : List Char) : ℕ := l.foldl (fun a c => a * 10 + (c.toNat - 48)) 0

/-- Python float() on the numeric-literal grammar sign [digits][.digits][exp].
The inf/nan words and digit-group underscores never occur in the strings the
price pipeline produces, so they are not modelled. -/
def pyFloat (s0 : List Char) : Option ℚ :=
  let s := pyStrip s0
  let t := match s with
    | '+' :: r => (r, (1 : ℚ))
    | '-' :: r => (r, (-1 : ℚ))
    | r => (r, (1 : ℚ))
  let ip := t.1.takeWhile Char.isDigit
  let r1 := t.1.drop ip.length
  let fpart := match r1 with
    | '.' :: r => some (r.takeWhile Char.isDigit, r.drop (r.takeWhile Char.isDigit).length)
    | r => some (([] : List Char), r)
  match fpart with
  | none => none
  | some (fp, r2) =>
    if ip.isEmpty && fp.isEmpty then none else
    let mant : ℚ := (digitsVal ip : ℚ) + (digitsVal fp : ℚ) / (10 : ℚ) ^ fp.length
    match r2 with
    | [] => some (t.2 * mant)
    | e :: r3 =>
      if e = 'e' || e = 'E' then
        let t2 := match r3 with
          | '+' :: r => (r, (1 : ℤ))
          | '-' :: r => (r, (-1 : ℤ))
          | r => (r, (1 : ℤ))
        let ds := t2.1.takeWhile Char.isDigit
        if ds.isEmpty || !(t2.1.drop ds.length).isEmpty then none
        else some (t.2 * mant * (10 : ℚ) ^ (t2.2 * digitsVal ds))
      else none

/-- Tail of the European-format regex after the first thousands group:
matches ((backslash-dot digit-triple)* (comma digit or digit-pair)? end). -/
def s1groups : List Char → Bool
  | '.' :: a :: b :: c :: rest => a.isDigit && b.isDigit && c.isDigit && s1groups rest
  | '.' :: _ => false
  | [] => true
  | [','] => false
  | ',' :: [d] => d.isDigit
  | ',' :: [d, e] => d.isDigit && e.isDigit
  | _ => false

/-- Full-string match of the European thousands format
(1-3 digits, one or more dot-led digit triples, optional comma decimals),
the first case of _parse_price. -/
def isShape1 (s : List Char) : Bool :=
  let r := s.takeWhile Char.isDigit
  decide (1 ≤ r.length) && decide (r.length ≤ 3) &&
    (match s.drop r.length with
     | '.' :: a :: b :: c :: rest => a.isDigit && b.isDigit && c.isDigit && s1groups rest
     | _ => false)

/-- Full-string match of the comma-decimal format (digits, comma, 1-2 digits),
the second case of _parse_price. -/
def isShape2 (s : List Char) : Bool :=
  let r := s.takeWhile Char.isDigit
  decide (1 ≤ r.length) &&
    (match s.drop r.length with
     | ',' :: [d] => d.isDigit
     | ',' :: [d, e] => d.isDigit && e.isDigit
     | _ => false)

/-- pdf_processor._parse_price: disambiguate the three numeric conventions by
regex shape, in priority order, then parse with float(). -/
def _parse_price (price_str : List Char) : Option ℚ :=
  let s := pyStrip price_str
  let s2 :=
    if isShape1 s then (s.filter (fun c => c ≠ '.')).map (fun c => if c = ',' then '.' else c)
    else if isShape2 s then s.map (fun c => if c = ',' then '.' else c)
    else s.filter (fun c => c ≠ ',')
  pyFloat s2

/-- A regex match: start and end offsets of the whole match in the span text,
and the price token the code extracts from it (group 1 of the symbol pattern,
which coincides with group 0 of the label pattern's capture). -/
structure RegMatch where
  start : ℕ
  stop : ℕ
  token : List Char
  deriving DecidableEq, Repr

/-- The character class of the symbol pattern's numeric run [digit space , .]. -/
def symCls (c : Char) : Bool := c.isDigit || c.isWhitespace || c = ',' || c = '.'

/-- Attempt of the symbol-mode pattern (escaped symbol, \s*, then a digit and
a greedy run of digits, whitespace, commas and dots) at offset i. -/
def symbolMatchAt (sym text : List Char) (i : ℕ) : Option RegMatch :=
  let rest := text.drop i
  if litPre sym rest then
    let r2 := rest.drop sym.length
    let sp := r2.takeWhile Char.isWhitespace
    match r2.drop sp.length with
    | [] => none
    | c :: cs =>
      if c.isDigit then
        let run := cs.takeWhile symCls
        some ⟨i, i + sym.length + sp.length + 1 + run.length, c :: run⟩
      else none
  else none

/-- Word character for the regex word boundary (ASCII range of Python \w). -/
def isWordChar (c : Char) : Bool := c.isAlphanum || c = '_'

/-- Is there a word boundary just after position p (end of text or a
non-word character)? -/
def boundaryAfter (text : List Char) (p : ℕ) : Bool :=
  match text.drop p with
  | [] => true
  | c :: _ => !isWordChar c

/-- Attempt of the label-mode pattern (word boundary, 3 or more digits, an
optional separator and two decimals, word boundary) at offset i, with the
regex engine's greedy-then-backtrack treatment of the optional group. -/
def labelMatchAt (text : List Char) (i : ℕ) : Option RegMatch :=
  let prevOk := match i with
    | 0 => true
    | j + 1 => !isWordChar (text.getD j ' ')
  if !prevOk then none else
  let run := (text.drop i).takeWhile Char.isDigit
  if run.length < 3 then none else
  match (text.drop i).drop run.length with
  | p :: d1 :: d2 :: _ =>
    if (p = ',' || p = '.') && d1.isDigit && d2.isDigit &&
        boundaryAfter text (i + run.length + 3) then
      some ⟨i, i + run.length + 3, run ++ [p, d1, d2]⟩
    else if boundaryAfter text (i + run.length) then some ⟨i, i + run.length, run⟩
    else none
  | _ =>
    if boundaryAfter text (i + run.length) then some ⟨i, i + run.length, run⟩
    else none

/-- Scan of re.search: try the matcher at i, i+1, ... for fuel positions and
return the first success. -/
def searchFrom (f : ℕ → Option RegMatch) : ℕ → ℕ → Option RegMatch
  | _, 0 => none
  | i, fuel + 1 =>
    match f i with
    | some m => some m
    | none => searchFrom f (i + 1) fuel

/-- re.search of the symbol pattern over a span text. -/
def symbolSearch (sym text : List Char) : Option RegMatch :=
  searchFrom (symbolMatchAt sym text) 0 (text.length + 1)

/-- re.search of the label pattern over a span text. -/
def labelSearch (text : List Char) : Option RegMatch :=
  searchFrom (labelMatchAt text) 0 (text.length + 1)

/-- The pattern convert_prices compiles, applied at offset i. -/
def matchAtMode (isSym : Bool) (sym text : List Char) (i : ℕ) : Option RegMatch :=
  if isSym then symbolMatchAt sym text i else labelMatchAt text i

/-- The pattern convert_prices compiles, searched over a span text. -/
def searchMode (isSym : Bool) (sym text : List Char) : Option RegMatch :=
  if isSym then symbolSearch sym text else labelSearch text

/-- convert_prices mode test: a short non-alphabetic marker is a symbol. -/
def isSymbolMode (fc : List Char) : Bool :=
  decide ((pyStrip fc).length ≤ 2) && !pyIsAlpha (pyStrip fc)

/-- An axis-aligned rectangle in page points (fitz.Rect). -/
structure Rect where
  x0 : ℚ
  y0 : ℚ
  x1 : ℚ
  y1 : ℚ
  deriving DecidableEq, Repr

/-- Width of a fitz rectangle. -/
def Rect.w (r : Rect) : ℚ := r.x1 - r.x0

/-- Height of a fitz rectangle. -/
def Rect.h (r : Rect) : ℚ := r.y1 - r.y0

/-- A text span of page.get_text("rawdict"): text, bbox, font size and
packed-integer color. -/
structure Span where
  text : List Char
  bbox : Rect
  size : ℚ
  color : ℕ
  deriving DecidableEq, Repr

/-- A page as convert_prices consumes it: the plain extracted text and the
flattened list of rawdict spans (in block/line order). -/
structure PageC where
  fullText : List Char
  spans : List Span
  deriving DecidableEq, Repr

/-- Unpack a packed RGB integer to a normalized float triple. -/
def rgbOf (c : ℕ) : ℚ × ℚ × ℚ :=
  ((((c >>> 16) &&& 255 : ℕ) : ℚ) / 255,
   (((c >>> 8) &&& 255 : ℕ) : ℚ) / 255,
   ((c &&& 255 : ℕ) : ℚ) / 255)

/-- Digit grouping of a reversed digit string: insert a comma after every
three characters, working from the right. -/
def group3rev : List Char → List Char
  | a :: b :: c :: d :: rest => a :: b :: c :: ',' :: group3rev (d :: rest)
  | l => l

/-- Python format spec ",.2f": round half to even at two decimals, group the
integer digits by thousands.  (The sign of an exact rational stands in for
the float sign; rationals have no negative zero.) -/
def fmtComma (q : ℚ) : List Char :=
  let n := (pyRound (|q| * 100)).toNat
  let ip := (group3rev (Nat.toDigits 10 (n / 100)).reverse).reverse
  let fr := [Char.ofNat (n / 10 % 10 + 48), Char.ofNat (n % 10 + 48)]
  (if q < 0 then ['-'] else []) ++ ip ++ '.' :: fr

/-- A pending redaction record of convert_prices: original bbox, the full
replacement text of the span, font size and decoded color. -/
structure RedRec where
  bbox : Rect
  newText : List Char
  size : ℚ
  rgb : ℚ × ℚ × ℚ
  deriving DecidableEq, Repr

/-- Body of the span loop of convert_prices: search the pattern in the span
text, extract the price token, parse it, reject values under 10, and build
the redaction record with the converted, reformatted price spliced in place
of the whole match. -/
def processSpan (isSym : Bool) (sym : List Char) (mult : ℚ) (toCur : List Char)
    (sp : Span) : Option RedRec :=
  match searchMode isSym sym sp.text with
  | none => none
  | some m =>
    match _parse_price m.token with
    | none => none
    | some v =>
      if v < 10 then none else
      let newText := sp.text.take m.start ++ toCur ++ ' ' ::
        fmtComma (v * mult) ++ sp.text.drop m.stop
      some ⟨sp.bbox, newText, sp.size, rgbOf sp.color⟩

/-- The redaction list a page accumulates over its spans. -/
def pageRedactions (isSym : Bool) (sym : List Char) (mult : ℚ) (toCur : List Char)
    (page : PageC) : List RedRec :=
  page.spans.filterMap (processSpan isSym sym mult toCur)

/-- An observable page mutation of convert_prices. -/
inductive PageOp where
  | addRedact (r : Rect)
  | applyRedactions
  | insertText (pos : ℚ × ℚ) (t : List Char) (size : ℚ) (rgb : ℚ × ℚ × ℚ)
  deriving DecidableEq, Repr

/-- Is the operation a text insertion? -/
def PageOp.isInsert : PageOp → Bool
  | .insertText _ _ _ _ => true
  | _ => false

/-- Is the operation a redaction fill? -/
def PageOp.isAddRedact : PageOp → Bool
  | .addRedact _ => true
  | _ => false

/-- The sequence of operations convert_prices performs on one page: nothing on
a label-mode page whose text lacks the label; otherwise every redaction fill,
then the single apply_redactions pass, then every text insertion at the
original baseline with the original size and color. -/
def convertPageOps (fc : List Char) (mult : ℚ) (toCur : List Char)
    (page : PageC) : List PageOp :=
  let isSym := isSymbolMode fc
  if !isSym && !containsSub (upperL fc) (upperL page.fullText) then [] else
  let reds := pageRedactions isSym (pyStrip fc) mult toCur page
  reds.map (fun r => PageOp.addRedact r.bbox) ++ [PageOp.applyRedactions] ++
    reds.map (fun r =>
      PageOp.insertText (r.bbox.x0, r.bbox.y0 + r.size * (85/100)) r.newText r.size r.rgb)

/-- convert_prices over a document: the per-page operation traces, in page
order. -/
def convertPricesOps (fc : List Char) (mult : ℚ) (toCur : List Char)
    (doc : List PageC) : List (List PageOp) :=
  doc.map (convertPageOps fc mult toCur)

/-- Content test of the trimmers: any channel below the threshold. -/
def isContent (thr : ℕ) (p : Pixel) : Bool :=
  decide (p.1 < thr) || decide (p.2.1 < thr) || decide (p.2.2 < thr)

/-- Does a pixel row contain content (mask row of (arr < threshold).any)? -/
def contentRow (thr : ℕ) (row : List Pixel) : Bool := row.any (isContent thr)

/-- The per-row content mask rows = mask.any(axis=1). -/
def rowsMask (thr : ℕ) (img : Img) : List Bool := img.map (contentRow thr)

/-- The per-column content mask cols = mask.any(axis=0). -/
def colsMask (thr : ℕ) (img : Img) : List Bool :=
  (List.range (width img)).map fun j =>
    img.any fun row => isContent thr (row.getD j (0, 0, 0))

/-- Index of the first true entry (length if none). -/
def firstIdx : List Bool → ℕ
  | [] => 0
  | b :: t => if b then 0 else firstIdx t + 1

/-- numpy argmax of a boolean vector: first true index, 0 when all false. -/
def argmaxB (l : List Bool) : ℕ := if l.any id then firstIdx l else 0

/-- The numpy idiom len(mask) - mask[::-1].argmax(): one past the last true
entry of the mask. -/
def npLastTrue (l : List Bool) : ℕ := l.length - argmaxB l.reverse

/-- Final size gate of _trim_whitespace_dim: return the crop only when both
sides exceed 20 pixels. -/
def trimDimCheck (cropped : Img) : Option Img :=
  if 20 < width cropped ∧ 20 < height cropped then some cropped else none

/-- pdf_processor._trim_whitespace_dim: light whitespace trim for dimension
drawings (12-pixel pad clamped to the image, no dense-zone crop, minimum
20-pixel sides).  The numpy max(0, argmax - 12) is natural subtraction. -/
def _trim_whitespace_dim (img : Img) (threshold : ℕ) : Option Img :=
  if !(rowsMask threshold img).any id then none else
  trimDimCheck (cropZ
    ((argmaxB (colsMask threshold img) - 12 : ℕ) : ℤ)
    ((argmaxB (rowsMask threshold img) - 12 : ℕ) : ℤ)
    ((min (width img) (npLastTrue (colsMask threshold img) + 12) : ℕ) : ℤ)
    ((min (height img) (npLastTrue (rowsMask threshold img) + 12) : ℕ) : ℤ) img)

/-- Row-wise dark-content density of _trim_whitespace:
(arr2 < 180).any(axis=2).mean(axis=1). -/
def darkRowFrac (row : List Pixel) : ℚ :=
  ((row.countP fun p => isContent 180 p) : ℚ) / (row.length : ℚ)

/-- The sliding-window fold of _trim_whitespace: track the window start with
the strictly largest content score (first maximum wins, initial score -1). -/
def bestWindow (dark_row : List ℚ) (win : ℕ) (ys : List ℤ) : ℕ × ℚ :=
  ys.foldl
    (fun best y =>
      let score := ((dark_row.drop y.toNat).take win).sum
      if best.2 < score then (y.toNat, score) else best)
    (0, -1)

/-- pdf_processor._trim_whitespace: tight 6-pixel-pad trim, then a dense-zone
re-crop to the 55 percent window with the most dark rows whenever that removes
more than 8 percent from an edge. -/
def _trim_whitespace (img : Img) (threshold : ℕ) : Option Img :=
  let rows := rowsMask threshold img
  let cols := colsMask threshold img
  if !rows.any id then none else
  let r_min := argmaxB rows - 6
  let r_max := min (height img) (npLastTrue rows + 6)
  let c_min := argmaxB cols - 6
  let c_max := min (width img) (npLastTrue cols + 6)
  let trimmed := cropZ c_min r_min c_max r_max img
  let h2 := height trimmed
  let w2 := width trimmed
  if h2 < 40 then some trimmed else
  let dark_row := trimmed.map darkRowFrac
  let win := max 20 (pyInt ((h2 : ℚ) * (55/100))).toNat
  let best := bestWindow dark_row win (pyRangeZ 0 ((h2 : ℤ) - win + 1) 3)
  let best_end := min h2 (best.1 + win)
  let top_skip := best.1
  let bot_skip := h2 - best_end
  if pyInt ((h2 : ℚ) * (8/100)) < top_skip ∨ pyInt ((h2 : ℚ) * (8/100)) < bot_skip then
    some (cropZ 0 (max 0 ((best.1 : ℤ) - 8)) w2 (min h2 (best_end + 8)) trimmed)
  else some trimmed

/-- pdf_processor._find_split_y: brightest 8-pixel horizontal band in the
30-70 percent height band, scanned in steps of 5; returns its centre and
brightness. -/
def _find_split_y (full : Img) : ℤ × ℚ :=
  let w := width full
  let h := height full
  (pyRangeZ (pyInt ((h : ℚ) * (30/100))) (pyInt ((h : ℚ) * (70/100))) 5).foldl
    (fun best y =>
      let strip := cropZ 0 y w (y + 8) full
      let pxls := strip.flatten
      let bright := ((pxls.map fun p => (p.1 : ℚ) + p.2.1 + p.2.2).sum) /
        ((pxls.length : ℚ) * 3)
      if best.2 < bright then (y + 4, bright) else best)
    ((h / 2 : ℕ), 0)

/-- Dark fraction of the row strip arr[y, x0:x1] used by the upward scan of
_extend_crop_to_content. -/
def darkFracRow (img : Img) (x0 x1 y : ℤ) : ℚ :=
  let row := img.getD y.toNat []
  let strip := (row.drop x0.toNat).take (x1 - x0).toNat
  ((strip.countP fun p => isContent 200 p) : ℚ) / (strip.length : ℚ)

/-- The upward row scan of _extend_crop_to_content: extend while a row has
dark content, bridge blank gaps of up to 25 rows, stop otherwise. -/
def extendUpLoop (img : Img) (sx0 sx1 scanTop : ℤ) : List ℤ → ℤ → ℤ
  | [], cur => cur
  | y :: rest, cur =>
    if darkFracRow img sx0 sx1 y > 5/1000 then extendUpLoop img sx0 sx1 scanTop rest y
    else if (pyRangeZ 1 (min 26 (y - scanTop + 1)) 1).any
        (fun ahead => darkFracRow img sx0 sx1 (y - ahead) > 5/1000) then
      extendUpLoop img sx0 sx1 scanTop rest cur
    else cur

/-- pdf_processor._extend_crop_to_content: extend a crop upward to the start
of drawn content (with 10 percent horizontal margin, an 80 percent cap on the
extension and a final 10-pixel pad on all sides). -/
def _extend_crop_to_content (full : Img) (x0 y0 x1 y1 : ℤ) (px_w px_h : ℕ) :
    ℤ × ℤ × ℤ × ℤ :=
  let margin_x := pyInt (((x1 - x0 : ℤ) : ℚ) * (1/10))
  let scan_x0 := max 0 (x0 - margin_x)
  let scan_x1 := min (px_w : ℤ) (x1 + margin_x)
  let max_extend := pyInt (((y1 - y0 : ℤ) : ℚ) * (8/10))
  let scan_top := max 0 (y0 - max_extend)
  let new_y0 := extendUpLoop full scan_x0 scan_x1 scan_top (pyRangeDown (y0 - 1) (scan_top - 1)) y0
  (max 0 (x0 - 10), max 0 (new_y0 - 10), min (px_w : ℤ) (x1 + 10), min (px_h : ℤ) (y1 + 10))

/-- A vector path item of page.get_drawings() (curves and other commands
contribute nothing to rectangle recovery and are collapsed into other). -/
inductive PathItem where
  | re (r : Rect)
  | line (p q : ℚ × ℚ)
  | move (p : ℚ × ℚ)
  | other
  deriving DecidableEq, Repr

/-- Ascending list of the distinct values of an integer list (the sorted
set() of Python). -/
def sortedDistinct (l : List ℤ) : List ℤ := (l.mergeSort (fun a b => a ≤ b)).dedup

/-- pdf_processor._rect_from_path_items: an explicit re item, or a closed 4-5
segment polyline whose rounded points have exactly two distinct x and two
distinct y values. -/
def _rect_from_path_items (items : List PathItem) (_pw _ph : ℚ) : Option Rect :=
  match items with
  | [] => none
  | first :: _ =>
    match first with
    | .re r => some r
    | _ =>
      if 4 ≤ items.length ∧ items.length ≤ 5 then
        let pts := items.flatMap fun it =>
          match it with
          | .line p q => [p, q]
          | .move p => [p]
          | _ => []
        if pts.length < 4 then none else
        let xs := sortedDistinct (pts.map fun p => pyRound p.1)
        let ys := sortedDistinct (pts.map fun p => pyRound p.2)
        match xs, ys with
        | [a, b], [c, d] => some ⟨(a : ℚ), (c : ℚ), (b : ℚ), (d : ℚ)⟩
        | _, _ => none
      else none

/-- fitz Rect.is_empty. -/
def Rect.isEmpty (r : Rect) : Bool := decide (r.x1 ≤ r.x0) || decide (r.y1 ≤ r.y0)

/-- fitz Rect.is_infinite (the mupdf infinite rectangle). -/
def Rect.isInfinite (r : Rect) : Bool :=
  decide (r.x0 = -2147483648) && decide (r.y0 = -2147483648) &&
    decide (r.x1 = 2147483520) && decide (r.y1 = 2147483520)

/-- The candidate filter of _find_drawing_rects step 2: drop empty or infinite
resolved rectangles, boxes under 8 percent of the page in either dimension,
and boxes whose right edge passes 58 percent of the page width. -/
def surviveRect (r : Rect) (pw ph : ℚ) : Bool :=
  if r.isEmpty || r.isInfinite then false
  else if r.w < pw * (8/100) ∨ r.h < ph * (8/100) then false
  else if r.x1 > pw * (58/100) then false
  else true

/-- A text span as the rectangle locator reads it (text and bbox only). -/
structure SpanG where
  text : List Char
  bbox : ℚ × ℚ × ℚ × ℚ
  deriving DecidableEq, Repr

/-- A PDF page as extract_page_images consumes it: page-point size, the
flattened text spans, the vector drawing paths, the 150-dpi render, and the
embedded raster images (which the extractor never reads). -/
structure PageData where
  pw : ℚ
  ph : ℚ
  spans : List SpanG
  drawings : List (List PathItem)
  full : Img
  embedded : List Img

/-- Python min(pool, key=area): the first rectangle of minimal area. -/
def minByArea (c : Rect) (cs : List Rect) : Rect :=
  cs.foldl (fun best r => if r.w * r.h < best.w * best.h then r else best) c

/-- Stable insertion of a rectangle into a list ascending by y0. -/
def insByY (r : Rect) : List Rect → List Rect
  | [] => [r]
  | x :: xs => if x.y0 ≤ r.y0 then x :: insByY r xs else r :: x :: xs

/-- Stable ascending sort by y0 (Python list.sort with key y0). -/
def sortByY : List Rect → List Rect
  | [] => []
  | r :: rs => insByY r (sortByY rs)

/-- Step 3 of _find_drawing_rects: for each diameter-label point, the smallest
pool rectangle containing it, deduplicated by rounded top-left corner. -/
def anchorLoop (pool : List Rect) : List (ℚ × ℚ) → List (ℤ × ℤ) → List Rect
  | [], _ => []
  | pt :: rest, seen =>
    match pool.filter fun r =>
        decide (r.x0 ≤ pt.1) && decide (pt.1 ≤ r.x1) &&
        decide (r.y0 ≤ pt.2) && decide (pt.2 ≤ r.y1) with
    | [] => anchorLoop pool rest seen
    | c :: cs =>
      let best := minByArea c cs
      let key := (pyRound best.x0, pyRound best.y0)
      if seen.any (fun k => k = key) then anchorLoop pool rest seen
      else best :: anchorLoop pool rest (key :: seen)

/-- Does a span text carry a diameter marker? -/
def hasDiam (txt : List Char) : Bool := txt.any fun c => c = 'Ø' || c = 'ø'

/-- The filtered candidate pool of _find_drawing_rects (resolved rectangles
that pass the size and position filter). -/
def rectPool (page : PageData) : List Rect :=
  (page.drawings.filterMap fun items => _rect_from_path_items items page.pw page.ph).filter
    fun r => surviveRect r page.pw page.ph

/-- pdf_processor._find_drawing_rects: diameter-label anchoring over the
filtered rectangle pool, with the position-sorted pool as fallback; at most
two results, sorted top to bottom. -/
def _find_drawing_rects (page : PageData) : List Rect :=
  let label_pts := (page.spans.filter fun s => hasDiam s.text).map
    fun s => ((s.bbox.1 + s.bbox.2.2.1) / 2, (s.bbox.2.1 + s.bbox.2.2.2) / 2)
  let pool := rectPool page
  if pool.isEmpty then [] else
  if !label_pts.isEmpty then
    let found := anchorLoop pool label_pts []
    if !found.isEmpty then (sortByY found).take 2
    else (sortByY pool).take 2
  else (sortByY pool).take 2

/-- A bounding box of the AI service, in 0-100 percentage coordinates. -/
structure AiBox where
  x0 : ℚ
  y0 : ℚ
  x1 : ℚ
  y1 : ℚ
  deriving DecidableEq, Repr

/-- The result of region extraction: illustration and dimension-drawing
crops. -/
structure Extraction where
  product : List Img
  dim : List Img
  deriving DecidableEq, Repr

/-- The section crops of strategy 3 of extract_page_images: the left 35
percent of the page, split at the brightest separator band when one exists. -/
def zoneRegions (page : PageData) : List Img :=
  let full := page.full
  let px_w := width full
  let px_h := height full
  let draw_right := pyInt ((px_w : ℚ) * (35/100))
  let s := _find_split_y full
  let two := decide ((235 : ℚ) < s.2) &&
    decide ((px_h : ℚ) * (25/100) < (s.1 : ℚ)) &&
    decide ((s.1 : ℚ) < (px_h : ℚ) * (75/100))
  if two then [cropZ 0 0 draw_right s.1 full, cropZ 0 s.1 draw_right px_h full]
  else [cropZ 0 0 draw_right px_h full]

/-- Strategy 3 of extract_page_images: trim each zone crop with the
dimension-drawing trimmer and keep the survivors. -/
def extractZone (page : PageData) : Extraction :=
  ⟨[], (zoneRegions page).filterMap fun r => _trim_whitespace_dim r 248⟩

/-- The dimension crops of strategy 2 of extract_page_images: located vector
rectangles, extended upward, converted to pixel crops, kept above 40 pixels a
side. -/
def vectorDims (page : PageData) : List Img :=
  let full := page.full
  let px_w := width full
  let px_h := height full
  let sx := (px_w : ℚ) / page.pw
  let sy := (px_h : ℚ) / page.ph
  (_find_drawing_rects page).filterMap fun r =>
    let rx0 := pyInt (r.x0 * sx)
    let ry0 := pyInt (r.y0 * sy)
    let rx1 := pyInt (r.x1 * sx)
    let ry1 := pyInt (r.y1 * sy)
    let e := _extend_crop_to_content full rx0 ry0 rx1 ry1 px_w px_h
    let c := cropZ e.1 e.2.1 e.2.2.1 e.2.2.2 full
    if 40 < width c ∧ 40 < height c then some c else none

/-- Strategy 2 of extract_page_images with its fallthrough: vector-rect
detection, else the zone strategy. -/
def extractVectorZone (page : PageData) : Extraction :=
  if (vectorDims page).isEmpty then extractZone page else ⟨[], vectorDims page⟩

/-- The dimension crops of strategy 1 of extract_page_images: AI percentage
boxes converted to padded pixel crops, kept above 30 pixels a side. -/
def aiCropDims (boxes : List AiBox) (full : Img) : List Img :=
  let px_w := width full
  let px_h := height full
  boxes.filterMap fun b =>
    let x0 := max 0 (pyInt (b.x0 / 100 * px_w) - 6)
    let y0 := max 0 (pyInt (b.y0 / 100 * px_h) - 6)
    let x1 := min (px_w : ℤ) (pyInt (b.x1 / 100 * px_w) + 6)
    let y1 := min (px_h : ℤ) (pyInt (b.y1 / 100 * px_h) + 6)
    let c := cropZ x0 y0 x1 y1 full
    if 30 < width c ∧ 30 < height c then some c else none

/-- pdf_processor.extract_page_images: AI bounding boxes when an API key is
configured and the service returns usable crops, then vector-rect detection,
then the zone fallback.  The aiBoxes argument is the (validated) result list
of ai_extractor.find_dim_boxes when an API key is present.  The product list
is always empty: real-life product photos are uploaded manually. -/
def extract_page_images (page : PageData) (aiBoxes : Option (List AiBox)) : Extraction :=
  match aiBoxes with
  | none => extractVectorZone page
  | some boxes =>
    if boxes.isEmpty then extractVectorZone page else
    if (aiCropDims boxes page.full).isEmpty then extractVectorZone page
    else ⟨[], aiCropDims boxes page.full⟩

/-- A page of a fitz document, abstracted as its render at a given dpi. -/
abbrev PageR := ℕ → Img

/-- pdf_processor.render_single_page: open the document, clamp the page index
to the last page, render it.  An empty document raises (doc[-1] on no
pages). -/
def render_single_page (doc : List PageR) (page_num dpi : ℕ) : Except String Img :=
  match doc with
  | [] => Except.error "page not in document"
  | p :: ps => Except.ok (((p :: ps).getD (min page_num ps.length) (fun _ => [])) dpi)

/-- Is a render result a success? -/
def isOkE : Except String Img → Bool
  | .ok _ => true
  | .error _ => false

/-! ### Concrete instances used by witnesses and counterexamples -/

/-- A uniform light-gray 60 by 1 bitmap (every channel 200). -/
def gray60 : Img := List.replicate 60 [(200, 200, 200)]

/-- The 41 by 1 prefix that the illustration trimmer produces from gray60. -/
def gray41 : Img := List.replicate 41 [(200, 200, 200)]

/-- A uniform dark-gray 25 by 25 bitmap (a fixed point of the dim trimmer). -/
def g25 : Img := List.replicate 25 (List.replicate 25 (100, 100, 100))

/-- A one-page document whose only page renders to a single black pixel. -/
def c2doc : List PageR := [fun _ => [[(0, 0, 0)]]]

/-- A page with an embedded 200 by 200 raster image and no vector paths;
its render is a uniform dark 60 by 24 bitmap. -/
def c1page : PageData :=
  ⟨600, 240, [], [], List.replicate 24 (List.replicate 60 (100, 100, 100)),
    [List.replicate 200 (List.replicate 200 (120, 120, 120))]⟩

/-- A page for the price-conversion trace: one span holding a symbol price. -/
def c4page : PageC :=
  ⟨"page €149,00 text".toList, [⟨"€149,00".toList, ⟨5, 5, 60, 15⟩, 10, 255⟩]⟩

/-- A label-mode page whose text lacks the currency label. -/
def c8page : PageC :=
  ⟨"no label here".toList, [⟨"14469,00".toList, ⟨5, 5, 60, 15⟩, 10, 0⟩]⟩

/-- A span whose text contains two symbol-price matches, the first of which
parses below the minimum-price threshold. -/
def c10cexSpan : Span := ⟨"€5 €100".toList, ⟨0, 0, 10, 10⟩, 10, 0⟩

/-- A span whose text contains two symbol-price matches above the threshold. -/
def c10span : Span := ⟨"€100 €200".toList, ⟨0, 0, 10, 10⟩, 10, 0⟩

/-- The redaction record the span loop produces for c10span. -/
def c10red : RedRec := ⟨⟨0, 0, 10, 10⟩, "$ 200.00€200".toList, 10, (0, 0, 0)⟩

/-! ### Generic list auxiliaries -/

/-- getD inside the length is getElem. -/
theorem getD_lt {α : Type} (l : List α) (n : ℕ) (d : α) (h : n < l.length) :
    l.getD n d = l[n] := by
  simp [List.getD_eq_getElem?_getD, List.getElem?_eq_getElem h]

/-- A boolean list with a true entry satisfies any. -/
theorem any_of_get (l : List Bool) (i : ℕ) (hi : i < l.length)
    (h : l[i] = true) : l.any id = true :=
  List.any_eq_true.mpr ⟨l[i], List.getElem_mem hi, h⟩

/-- any as an indexed existential. -/
theorem any_iff_ex {α : Type} (p : α → Bool) (l : List α) :
    l.any p = true ↔ ∃ i, ∃ hi : i < l.length, p (l[i]) = true := by
  rw [List.any_eq_true]
  constructor
  · rintro ⟨x, hx, hpx⟩
    rcases List.mem_iff_getElem.mp hx with ⟨i, hi, rfl⟩
    exact ⟨i, hi, hpx⟩
  · rintro ⟨i, hi, h⟩
    exact ⟨l[i], List.getElem_mem hi, h⟩

/-- any is invariant under reversal. -/
theorem any_rev {α : Type} (p : α → Bool) (l : List α) :
    l.reverse.any p = l.any p := by
  simp [List.any_eq_true]

/-! ### firstIdx, argmaxB and npLastTrue -/

/-- Transport a getElem along an index equality. -/
theorem getElem_idx_congr {α : Type} (l : List α) (i j : ℕ) (hij : i = j)
    (hi : i < l.length) (hj : j < l.length) : l[i] = l[j] := by
  subst hij; rfl

theorem firstIdx_le (l : List Bool) : firstIdx l ≤ l.length := by
  induction l with
  | nil => simp [firstIdx]
  | cons b t ih =>
    by_cases hb : b = true
    · simp [firstIdx, hb]
    · simp only [Bool.not_eq_true] at hb
      simp [firstIdx, hb]
      omega

theorem firstIdx_lt (l : List Bool) (h : l.any id = true) : firstIdx l < l.length := by
  induction l with
  | nil => simp at h
  | cons b t ih =>
    by_cases hb : b = true
    · simp [firstIdx, hb]
    · simp only [Bool.not_eq_true] at hb
      simp only [List.any_cons, hb, id, Bool.false_or] at h
      have h2 := ih h
      simp [firstIdx, hb]
      omega

theorem firstIdx_true (l : List Bool) (h : firstIdx l < l.length) :
    l[firstIdx l] = true := by
  induction l with
  | nil => simp at h
  | cons b t ih =>
    by_cases hb : b = true
    · simp [firstIdx, hb]
    · simp only [Bool.not_eq_true] at hb
      have h2 : firstIdx t < t.length := by
        simp [firstIdx, hb] at h
        omega
      have h3 := ih h2
      simp [firstIdx, hb]
      simpa using h3

theorem firstIdx_false (l : List Bool) (i : ℕ) (hi : i < l.length)
    (h : i < firstIdx l) : l[i] = false := by
  induction l generalizing i with
  | nil => simp at hi
  | cons b t ih =>
    by_cases hb : b = true
    · simp [firstIdx, hb] at h
    · simp only [Bool.not_eq_true] at hb
      cases i with
      | zero => simpa using hb
      | succ k =>
        have hk : k < t.length := by simpa using hi
        have h2 : k < firstIdx t := by
          simp [firstIdx, hb] at h; omega
        simpa using ih k hk h2

theorem firstIdx_char (l : List Bool) (k : ℕ) (hk : k < l.length)
    (ht : l[k] = true)
    (hbefore : ∀ i, ∀ hi : i < l.length, i < k → l[i] = false) :
    firstIdx l = k := by
  rcases Nat.lt_trichotomy (firstIdx l) k with h | h | h
  · have hlt : firstIdx l < l.length := Nat.lt_trans h hk
    have h2 := hbefore (firstIdx l) hlt h
    rw [firstIdx_true l hlt] at h2
    exact absurd h2 (by simp)
  · exact h
  · have h2 := firstIdx_false l k hk h
    rw [ht] at h2
    exact absurd h2 (by simp)

theorem argmaxB_of_any (l : List Bool) (h : l.any id = true) : argmaxB l = firstIdx l := by
  simp [argmaxB, h]

theorem np_le (l : List Bool) : npLastTrue l ≤ l.length := Nat.sub_le _ _

theorem np_pos (l : List Bool) (h : l.any id = true) : 0 < npLastTrue l := by
  have hrev : l.reverse.any id = true := by rw [any_rev]; exact h
  have h2 := firstIdx_lt l.reverse hrev
  have hlen : l.reverse.length = l.length := List.length_reverse l
  unfold npLastTrue
  rw [argmaxB_of_any _ hrev]
  omega

theorem np_true (l : List Bool) (h : l.any id = true)
    (hlt : npLastTrue l - 1 < l.length) :
    l[npLastTrue l - 1] = true := by
  have hrev : l.reverse.any id = true := by rw [any_rev]; exact h
  have hfl : firstIdx l.reverse < l.reverse.length := firstIdx_lt _ hrev
  have hlen : l.reverse.length = l.length := List.length_reverse l
  have h2 := firstIdx_true l.reverse hfl
  rw [List.getElem_reverse] at h2
  have hidx : npLastTrue l - 1 = l.length - 1 - firstIdx l.reverse := by
    unfold npLastTrue
    rw [argmaxB_of_any _ hrev]
    omega
  exact (getElem_idx_congr l (npLastTrue l - 1)
    (l.length - 1 - firstIdx l.reverse) hidx hlt (by omega)).trans h2

theorem np_false (l : List Bool) (h : l.any id = true) (i : ℕ)
    (hi : i < l.length) (hge : npLastTrue l ≤ i) : l[i] = false := by
  have hrev : l.reverse.any id = true := by rw [any_rev]; exact h
  have hlen : l.reverse.length = l.length := List.length_reverse l
  have hj : l.length - 1 - i < l.reverse.length := by omega
  have hjf : l.length - 1 - i < firstIdx l.reverse := by
    unfold npLastTrue at hge
    rw [argmaxB_of_any _ hrev] at hge
    have := firstIdx_le l.reverse
    omega
  have h2 := firstIdx_false l.reverse (l.length - 1 - i) hj hjf
  rw [List.getElem_reverse] at h2
  exact (getElem_idx_congr l i (l.length - 1 - (l.length - 1 - i))
    (by omega) hi (by omega)).trans h2

theorem np_char (l : List Bool) (h : l.any id = true) (k : ℕ) (hk0 : 0 < k)
    (hkl : k ≤ l.length) (hkt : l[k - 1] = true)
    (hafter : ∀ i, ∀ hi : i < l.length, k ≤ i → l[i] = false) :
    npLastTrue l = k := by
  rcases Nat.lt_trichotomy (npLastTrue l) k with hlt | he | hgt
  · have hp := np_pos l h
    have hb : npLastTrue l ≤ k - 1 := by omega
    have h2 := np_false l h (k - 1) (by omega) hb
    rw [hkt] at h2
    exact absurd h2 (by simp)
  · exact he
  · have hle := np_le l
    have h2 := hafter (npLastTrue l - 1) (by omega) (by omega)
    rw [np_true l h (by omega)] at h2
    exact absurd h2 (by simp)

/-! ### Pointwise facts about cropZ and the masks -/

theorem cropZ_length (l u r d : ℤ) (img : Img) :
    (cropZ l u r d img).length = (d - u).toNat := by
  unfold cropZ
  rw [List.length_map, List.length_range]

theorem cropZ_get (l u r d : ℤ) (img : Img) (y : ℕ)
    (hy : y < (cropZ l u r d img).length) :
    (cropZ l u r d img)[y] = (List.range (r - l).toNat).map fun (xi : ℕ) =>
      pxlZ img (u + (y : ℤ)) (l + (xi : ℤ)) := by
  have hy2 : y < (d - u).toNat := by
    rw [cropZ_length] at hy
    exact hy
  unfold cropZ
  rw [List.getElem_map, List.getElem_range]

theorem cropZ_row_length (l u r d : ℤ) (img : Img) (y : ℕ)
    (hy : y < (cropZ l u r d img).length) :
    (cropZ l u r d img)[y].length = (r - l).toNat := by
  rw [cropZ_get l u r d img y hy, List.length_map, List.length_range]

theorem cropZ_get_get (l u r d : ℤ) (img : Img) (y x : ℕ)
    (hy : y < (cropZ l u r d img).length)
    (hx : x < (cropZ l u r d img)[y].length) :
    (cropZ l u r d img)[y][x] = pxlZ img (u + y) (l + x) := by
  have hx2 : x < (r - l).toNat := by
    rw [cropZ_row_length l u r d img y hy] at hx
    exact hx
  have h2 := cropZ_get l u r d img y hy
  rw [List.getElem_of_eq h2, List.getElem_map, List.getElem_range]

/-- Width of an image as the length of its row 0. -/
theorem width_eq_len0 (img : Img) (h : 0 < img.length) :
    width img = img[0].length := by
  cases img with
  | nil => simp at h
  | cons r t => simp [width]

theorem width_cropZ (l u r d : ℤ) (img : Img)
    (h : 0 < (d - u).toNat) :
    width (cropZ l u r d img) = (r - l).toNat := by
  have hlen : 0 < (cropZ l u r d img).length := by simpa [cropZ_length] using h
  rw [width_eq_len0 _ hlen]
  exact cropZ_row_length l u r d img 0 hlen

/-- Nonnegative-coordinate reads through pxlZ are pxl reads. -/
theorem pxlZ_nat (img : Img) (y x : ℕ) :
    pxlZ img (y : ℤ) (x : ℤ) = pxl img y x := by
  simp [pxlZ]

/-- In-bounds pxl reads are getElem reads. -/
theorem pxl_get (img : Img) (y x : ℕ) (hy : y < img.length)
    (hx : x < img[y].length) : pxl img y x = img[y][x] := by
  unfold pxl
  rw [getD_lt img y [] hy, getD_lt _ x _ hx]

theorem rowsMask_length (thr : ℕ) (img : Img) : (rowsMask thr img).length = img.length := by
  simp [rowsMask]

theorem rowsMask_get (thr : ℕ) (img : Img) (i : ℕ) (hi : i < img.length)
    (hm : i < (rowsMask thr img).length) :
    (rowsMask thr img)[i] = contentRow thr img[i] := by
  simp [rowsMask]

theorem colsMask_length (thr : ℕ) (img : Img) : (colsMask thr img).length = width img := by
  simp [colsMask]

theorem colsMask_get (thr : ℕ) (img : Img) (j : ℕ) (hj : j < width img)
    (hm : j < (colsMask thr img).length) :
    (colsMask thr img)[j] = img.any fun row => isContent thr (row.getD j (0, 0, 0)) := by
  simp [colsMask]

/-- Cropping a rectangular image to its full box is the identity. -/
theorem cropZ_full (l : Img)
    (hrect : ∀ y, ∀ hy : y < l.length, l[y].length = width l) :
    cropZ (((0 : ℕ) : ℤ)) (((0 : ℕ) : ℤ)) ((width l : ℕ) : ℤ) ((height l : ℕ) : ℤ) l = l := by
  have hlen : (cropZ ((0 : ℕ) : ℤ) ((0 : ℕ) : ℤ) (width l : ℤ) (height l : ℤ) l).length
      = l.length := by
    rw [cropZ_length]
    simp [height]
  apply List.ext_getElem hlen
  intro y hy1 hy2
  have hrowlen : (cropZ ((0 : ℕ) : ℤ) ((0 : ℕ) : ℤ) (width l : ℤ) (height l : ℤ) l)[y].length
      = l[y].length := by
    rw [cropZ_row_length _ _ _ _ _ _ hy1, hrect y hy2]
    simp
  apply List.ext_getElem hrowlen
  intro x hx1 hx2
  rw [cropZ_get_get _ _ _ _ _ _ _ hy1 hx1]
  have hyx : ((0 : ℕ) : ℤ) + (y : ℤ) = ((y : ℕ) : ℤ) := by push_cast; ring
  have hxx : ((0 : ℕ) : ℤ) + (x : ℤ) = ((x : ℕ) : ℤ) := by push_cast; ring
  rw [hyx, hxx, pxlZ_nat, pxl_get l y x hy2 hx2]

theorem argmax_lt (l : List Bool) (h : l.any id = true) : argmaxB l < l.length := by
  rw [argmaxB_of_any _ h]
  exact firstIdx_lt _ h

theorem argmax_true (l : List Bool) (h : l.any id = true)
    (hb : argmaxB l < l.length) : l[argmaxB l] = true := by
  have he : firstIdx l = argmaxB l := (argmaxB_of_any _ h).symm
  have h1 := firstIdx_true l (by rw [he]; exact hb)
  exact (getElem_idx_congr l (argmaxB l) (firstIdx l) he.symm hb (by rw [he]; exact hb)).trans h1

theorem argmax_before (l : List Bool) (h : l.any id = true) (i : ℕ)
    (hi : i < l.length) (hlt : i < argmaxB l) : l[i] = false := by
  rw [argmaxB_of_any _ h] at hlt
  exact firstIdx_false l i hi hlt

theorem argmax_char (l : List Bool) (h : l.any id = true) (k : ℕ) (hk : k < l.length)
    (ht : l[k] = true) (hbefore : ∀ i, ∀ hi : i < l.length, i < k → l[i] = false) :
    argmaxB l = k := by
  rw [argmaxB_of_any _ h]
  exact firstIdx_char l k hk ht hbefore

/-- contentRow as an indexed existential. -/
theorem contentRow_iff (thr : ℕ) (row : List Pixel) :
    contentRow thr row = true ↔ ∃ j, ∃ hj : j < row.length, isContent thr row[j] = true :=
  any_iff_ex _ _

/-- C7 (amended, corrected): the dimension-drawing trimmer is idempotent on
every non-blank rectangular bitmap: a crop it returns is a fixed point of a
second trim at the same threshold.  (The illustration variant
_trim_whitespace is not idempotent — its dense-zone crop can shrink the
output again on a second application — so the claim holds only for
_trim_whitespace_dim.) -/
theorem trim_dim_idempotent (img : Img) (thr : ℕ) (t : Img)
    (hrectB : (img.all fun row => decide (row.length = width img)) = true)
    (h : _trim_whitespace_dim img thr = some t) :
    _trim_whitespace_dim t thr = some t := by
  have hrectI : ∀ i, ∀ hi : i < img.length, img[i].length = width img := by
    intro i hi
    exact of_decide_eq_true (List.all_eq_true.mp hrectB _ (List.getElem_mem hi))
  unfold _trim_whitespace_dim at h
  cases hA : (rowsMask thr img).any id with
  | false =>
    rw [hA] at h
    simp at h
  | true =>
    rw [hA] at h
    rw [if_neg (by simp)] at h
    unfold trimDimCheck at h
    by_cases hsz : 20 < width (cropZ ((argmaxB (colsMask thr img) - 12 : ℕ) : ℤ)
        ((argmaxB (rowsMask thr img) - 12 : ℕ) : ℤ)
        ((min (width img) (npLastTrue (colsMask thr img) + 12) : ℕ) : ℤ)
        ((min (height img) (npLastTrue (rowsMask thr img) + 12) : ℕ) : ℤ) img) ∧
      20 < height (cropZ ((argmaxB (colsMask thr img) - 12 : ℕ) : ℤ)
        ((argmaxB (rowsMask thr img) - 12 : ℕ) : ℤ)
        ((min (width img) (npLastTrue (colsMask thr img) + 12) : ℕ) : ℤ)
        ((min (height img) (npLastTrue (rowsMask thr img) + 12) : ℕ) : ℤ) img)
    case neg =>
      rw [if_neg hsz] at h
      cases h
    rw [if_pos hsz] at h
    have hteq : t = cropZ ((argmaxB (colsMask thr img) - 12 : ℕ) : ℤ)
        ((argmaxB (rowsMask thr img) - 12 : ℕ) : ℤ)
        ((min (width img) (npLastTrue (colsMask thr img) + 12) : ℕ) : ℤ)
        ((min (height img) (npLastTrue (rowsMask thr img) + 12) : ℕ) : ℤ) img :=
      (Option.some_inj.mp h).symm
    -- abbreviations for the first-pass quantities
    have hheq : height img = img.length := rfl
    have hMlen : (rowsMask thr img).length = img.length := rowsMask_length thr img
    have hClen : (colsMask thr img).length = width img := colsMask_length thr img
    set a := argmaxB (rowsMask thr img) with ha0
    set b := npLastTrue (rowsMask thr img) with hb0
    set ca := argmaxB (colsMask thr img) with hca0
    set cb := npLastTrue (colsMask thr img) with hcb0
    -- basic position facts for rows
    have haH : a < img.length := by
      have h1 := argmax_lt _ hA
      omega
    have haM : a < (rowsMask thr img).length := by omega
    have hMa : (rowsMask thr img)[a] = true := argmax_true _ hA haM
    have hMbefore : ∀ i, ∀ hi : i < img.length, i < a → (rowsMask thr img)[i] = false := by
      intro i hi hlt
      exact argmax_before _ hA i (by omega) hlt
    have hbH : b ≤ img.length := by
      have h1 := np_le (rowsMask thr img)
      omega
    have hbpos : 0 < b := np_pos _ hA
    have hMb : (rowsMask thr img)[b - 1] = true := np_true (rowsMask thr img) hA (by omega)
    have hMafter : ∀ i, ∀ hi : i < img.length, b ≤ i → (rowsMask thr img)[i] = false := by
      intro i hi hge
      exact np_false _ hA i (by omega) hge
    have hab : a < b := by
      by_contra hc
      have h1 := hMafter a haH (by omega)
      rw [hMa] at h1
      exact absurd h1 (by simp)
    -- columns carry content too
    have hCany : (colsMask thr img).any id = true := by
      have h1 : contentRow thr img[a] = true := by
        have h2 := rowsMask_get thr img a haH haM
        rw [← h2]
        exact hMa
      rcases (contentRow_iff thr img[a]).mp h1 with ⟨j, hj, hdark⟩
      have hjW : j < width img := by
        have := hrectI a haH
        omega
      have hjC : j < (colsMask thr img).length := by omega
      have h3 : (colsMask thr img)[j] = true := by
        rw [colsMask_get thr img j hjW hjC]
        refine List.any_eq_true.mpr ⟨img[a], List.getElem_mem haH, ?_⟩
        rw [getD_lt _ j _ hj]
        exact hdark
      exact any_of_get _ j hjC h3
    have hcaW : ca < width img := by
      have h1 := argmax_lt _ hCany
      omega
    have hcaC : ca < (colsMask thr img).length := by omega
    have hCca : (colsMask thr img)[ca] = true := argmax_true _ hCany hcaC
    have hCbefore : ∀ j, ∀ hj : j < width img, j < ca → (colsMask thr img)[j] = false := by
      intro j hj hlt
      exact argmax_before _ hCany j (by omega) hlt
    have hcbW : cb ≤ width img := by
      have h1 := np_le (colsMask thr img)
      omega
    have hcbpos : 0 < cb := np_pos _ hCany
    have hCcb : (colsMask thr img)[cb - 1] = true := np_true (colsMask thr img) hCany (by omega)
    have hCafter : ∀ j, ∀ hj : j < width img, cb ≤ j → (colsMask thr img)[j] = false := by
      intro j hj hge
      exact np_false _ hCany j (by omega) hge
    have hcacb : ca < cb := by
      by_contra hc
      have h1 := hCafter ca hcaW (by omega)
      rw [hCca] at h1
      exact absurd h1 (by simp)
    -- every dark pixel lies inside the detected content box
    have hLoc : ∀ i j, ∀ hi : i < img.length, ∀ hj : j < img[i].length,
        isContent thr (img[i][j]) = true → a ≤ i ∧ i < b ∧ ca ≤ j ∧ j < cb := by
      intro i j hi hj hdark
      have hjW : j < width img := by
        have := hrectI i hi
        omega
      have hrowT : (rowsMask thr img)[i] = true := by
        rw [rowsMask_get thr img i hi (by omega)]
        exact (contentRow_iff thr img[i]).mpr ⟨j, hj, hdark⟩
      have hcolT : (colsMask thr img)[j] = true := by
        rw [colsMask_get thr img j hjW (by omega)]
        refine List.any_eq_true.mpr ⟨img[i], List.getElem_mem hi, ?_⟩
        rw [getD_lt _ j _ hj]
        exact hdark
      refine ⟨?_, ?_, ?_, ?_⟩
      · by_contra hc
        have h1 := hMbefore i hi (by omega)
        rw [hrowT] at h1
        exact absurd h1 (by simp)
      · by_contra hc
        have h1 := hMafter i hi (by omega)
        rw [hrowT] at h1
        exact absurd h1 (by simp)
      · by_contra hc
        have h1 := hCbefore j hjW (by omega)
        rw [hcolT] at h1
        exact absurd h1 (by simp)
      · by_contra hc
        have h1 := hCafter j hjW (by omega)
        rw [hcolT] at h1
        exact absurd h1 (by simp)
    -- geometry of the crop
    have hrmax : a < min (height img) (b + 12) := by omega
    have hTh : t.length = min (height img) (b + 12) - (a - 12) := by
      rw [hteq, cropZ_length]
      omega
    have hThpos : 0 < t.length := by omega
    have hTw : width t = min (width img) (cb + 12) - (ca - 12) := by
      rw [hteq, width_cropZ _ _ _ _ _ (by omega)]
      omega
    have hTrowlen : ∀ y, ∀ hy : y < t.length, t[y].length = width t := by
      intro y hy
      have hy2 : y < (cropZ ((ca - 12 : ℕ) : ℤ) ((a - 12 : ℕ) : ℤ)
          ((min (width img) (cb + 12) : ℕ) : ℤ)
          ((min (height img) (b + 12) : ℕ) : ℤ) img).length := by
        rw [← hteq]
        exact hy
      have h1 : t[y] = (cropZ ((ca - 12 : ℕ) : ℤ) ((a - 12 : ℕ) : ℤ)
          ((min (width img) (cb + 12) : ℕ) : ℤ)
          ((min (height img) (b + 12) : ℕ) : ℤ) img)[y] :=
        List.getElem_of_eq hteq hy
      rw [h1, cropZ_row_length _ _ _ _ _ _ hy2, hTw]
      omega
    have hTget : ∀ y x, ∀ hy : y < t.length, ∀ hx : x < t[y].length,
        t[y][x] = pxl img ((a - 12) + y) ((ca - 12) + x) := by
      intro y x hy hx
      have hy2 : y < (cropZ ((ca - 12 : ℕ) : ℤ) ((a - 12 : ℕ) : ℤ)
          ((min (width img) (cb + 12) : ℕ) : ℤ)
          ((min (height img) (b + 12) : ℕ) : ℤ) img).length := by
        rw [← hteq]; exact hy
      have hrow : t[y] = (cropZ ((ca - 12 : ℕ) : ℤ) ((a - 12 : ℕ) : ℤ)
          ((min (width img) (cb + 12) : ℕ) : ℤ)
          ((min (height img) (b + 12) : ℕ) : ℤ) img)[y] :=
        List.getElem_of_eq hteq hy
      have hx2 : x < (cropZ ((ca - 12 : ℕ) : ℤ) ((a - 12 : ℕ) : ℤ)
          ((min (width img) (cb + 12) : ℕ) : ℤ)
          ((min (height img) (b + 12) : ℕ) : ℤ) img)[y].length := by
        rw [← hrow]
        exact hx
      have h2 : t[y][x] = (cropZ ((ca - 12 : ℕ) : ℤ) ((a - 12 : ℕ) : ℤ)
          ((min (width img) (cb + 12) : ℕ) : ℤ)
          ((min (height img) (b + 12) : ℕ) : ℤ) img)[y][x] :=
        List.getElem_of_eq hrow hx
      rw [h2, cropZ_get_get _ _ _ _ _ _ _ hy2 hx2]
      have hcast : ((a - 12 : ℕ) : ℤ) + (y : ℤ) = (((a - 12) + y : ℕ) : ℤ) := by push_cast; ring
      have hcast2 : ((ca - 12 : ℕ) : ℤ) + (x : ℤ) = (((ca - 12) + x : ℕ) : ℤ) := by push_cast; ring
      rw [hcast, hcast2, pxlZ_nat]
    -- transfer of the row mask to the crop
    have hMtlen : (rowsMask thr t).length = t.length := rowsMask_length thr t
    have hCtlen : (colsMask thr t).length = width t := colsMask_length thr t
    have hMt : ∀ y, ∀ hyT : y < (rowsMask thr t).length,
        ∀ hyM2 : (a - 12) + y < (rowsMask thr img).length,
        (rowsMask thr t)[y] = (rowsMask thr img)[(a - 12) + y] := by
      intro y hyT hyM2
      have hy : y < t.length := by omega
      have hyM : (a - 12) + y < img.length := by omega
      rw [rowsMask_get thr t y hy hyT,
        rowsMask_get thr img ((a - 12) + y) hyM hyM2]
      cases hv : contentRow thr img[(a - 12) + y] with
      | true =>
        rcases (contentRow_iff thr img[(a - 12) + y]).mp hv with ⟨j, hj, hdark⟩
        rcases hLoc ((a - 12) + y) j hyM hj hdark with ⟨_, _, hcaj, hjcb⟩
        have hxT : j - (ca - 12) < t[y].length := by
          rw [hTrowlen y hy, hTw]
          omega
        have h1 := hTget y (j - (ca - 12)) hy hxT
        have h2 : (ca - 12) + (j - (ca - 12)) = j := by omega
        rw [h2] at h1
        have h3 : pxl img ((a - 12) + y) j = img[(a - 12) + y][j] := pxl_get img _ j hyM hj
        refine (contentRow_iff thr t[y]).mpr ⟨j - (ca - 12), hxT, ?_⟩
        rw [h1, h3]
        exact hdark
      | false =>
        cases hc : contentRow thr t[y] with
        | false => rfl
        | true =>
          exfalso
          rcases (contentRow_iff thr t[y]).mp hc with ⟨x, hx, hdark⟩
          have h1 := hTget y x hy hx
          have hxW : (ca - 12) + x < width img := by
            have := hTrowlen y hy
            rw [hTw] at this
            omega
          have hxR : (ca - 12) + x < img[(a - 12) + y].length := by
            rw [hrectI _ hyM]
            exact hxW
          have h3 : pxl img ((a - 12) + y) ((ca - 12) + x) =
              img[(a - 12) + y][(ca - 12) + x] := pxl_get img _ _ hyM hxR
          rw [h1, h3] at hdark
          have h4 : contentRow thr img[(a - 12) + y] = true :=
            (contentRow_iff thr _).mpr ⟨(ca - 12) + x, hxR, hdark⟩
          rw [hv] at h4
          exact absurd h4 (by simp)
    -- transfer of the column mask to the crop
    have hCt : ∀ x, ∀ hxT : x < (colsMask thr t).length,
        ∀ hxW2 : (ca - 12) + x < (colsMask thr img).length,
        (colsMask thr t)[x] = (colsMask thr img)[(ca - 12) + x] := by
      intro x hxT hxW2
      have hx : x < width t := by omega
      have hxW : (ca - 12) + x < width img := by omega
      rw [colsMask_get thr t x hx hxT,
        colsMask_get thr img ((ca - 12) + x) hxW hxW2]
      cases hv : img.any fun row => isContent thr (row.getD ((ca - 12) + x) (0, 0, 0)) with
      | true =>
        rcases List.any_eq_true.mp hv with ⟨row, hmem, hdark⟩
        rcases List.mem_iff_getElem.mp hmem with ⟨i, hi, rfl⟩
        have hjR : (ca - 12) + x < img[i].length := by
          rw [hrectI i hi]
          exact hxW
        rw [getD_lt _ _ _ hjR] at hdark
        rcases hLoc i ((ca - 12) + x) hi hjR hdark with ⟨hai, hib, _, _⟩
        have hyT : i - (a - 12) < t.length := by
          rw [hTh]
          omega
        have h1 := hTget (i - (a - 12)) x hyT (by rw [hTrowlen _ hyT]; exact hx)
        have h2 : (a - 12) + (i - (a - 12)) = i := by omega
        rw [h2] at h1
        have h3 : pxl img i ((ca - 12) + x) = img[i][(ca - 12) + x] := pxl_get img i _ hi hjR
        refine List.any_eq_true.mpr ⟨t[i - (a - 12)], List.getElem_mem hyT, ?_⟩
        rw [getD_lt _ x _ (by rw [hTrowlen _ hyT]; exact hx), h1, h3]
        exact hdark
      | false =>
        cases hc : t.any fun row => isContent thr (row.getD x (0, 0, 0)) with
        | false => rfl
        | true =>
          exfalso
          rcases List.any_eq_true.mp hc with ⟨row, hmem, hdark⟩
          rcases List.mem_iff_getElem.mp hmem with ⟨y, hy, rfl⟩
          have hxL : x < t[y].length := by rw [hTrowlen y hy]; exact hx
          rw [getD_lt _ x _ hxL] at hdark
          have h1 := hTget y x hy hxL
          have hyM : (a - 12) + y < img.length := by
            rw [hTh] at hy
            omega
          have hxR : (ca - 12) + x < img[(a - 12) + y].length := by
            rw [hrectI _ hyM]
            exact hxW
          have h3 : pxl img ((a - 12) + y) ((ca - 12) + x) =
              img[(a - 12) + y][(ca - 12) + x] := pxl_get img _ _ hyM hxR
          rw [h1, h3] at hdark
          have h4 : img.any (fun row => isContent thr (row.getD ((ca - 12) + x) (0, 0, 0))) = true := by
            refine List.any_eq_true.mpr ⟨img[(a - 12) + y], List.getElem_mem hyM, ?_⟩
            rw [getD_lt _ _ _ hxR]
            exact hdark
          rw [hv] at h4
          exact absurd h4 (by simp)
    -- the second pass sees the content touching all four crop edges
    have hyaT : a - (a - 12) < t.length := by
      rw [hTh]
      omega
    have hAny2 : (rowsMask thr t).any id = true := by
      have h1 := hMt (a - (a - 12)) (by omega) (by omega)
      have h2 : (a - 12) + (a - (a - 12)) = a := by omega
      have h3 : (rowsMask thr img)[(a - 12) + (a - (a - 12))] = true := by
        refine (getElem_idx_congr _ _ _ h2 (by omega) (by omega)).trans hMa
      rw [h3] at h1
      exact any_of_get _ _ (by omega) h1
    have ha2 : argmaxB (rowsMask thr t) = a - (a - 12) := by
      refine argmax_char _ hAny2 _ (by omega) ?_ ?_
      · have h1 := hMt (a - (a - 12)) (by omega) (by omega)
        have h2 : (a - 12) + (a - (a - 12)) = a := by omega
        have h3 : (rowsMask thr img)[(a - 12) + (a - (a - 12))] = true :=
          (getElem_idx_congr _ _ _ h2 (by omega) (by omega)).trans hMa
        rw [h3] at h1
        exact h1
      · intro i hi hlt
        have hiT : i < t.length := by omega
        have h1 := hMt i (by omega) (by omega)
        have h2 := hMbefore ((a - 12) + i) (by omega) (by omega)
        rw [h2] at h1
        exact h1
    have hb2 : npLastTrue (rowsMask thr t) = b - (a - 12) := by
      refine np_char _ hAny2 _ (by omega) (by omega) ?_ ?_
      · have hyT : b - (a - 12) - 1 < t.length := by
          rw [hTh]
          omega
        have h1 := hMt (b - (a - 12) - 1) (by omega) (by omega)
        have h2 : (a - 12) + (b - (a - 12) - 1) = b - 1 := by omega
        have h3 : (rowsMask thr img)[(a - 12) + (b - (a - 12) - 1)] = true :=
          (getElem_idx_congr _ _ _ h2 (by omega) (by omega)).trans hMb
        rw [h3] at h1
        exact h1
      · intro i hi hge
        have hiT : i < t.length := by omega
        have h1 := hMt i (by omega) (by rw [hTh] at hiT; omega)
        have h2 := hMafter ((a - 12) + i) (by rw [hTh] at hiT; omega) (by omega)
        rw [h2] at h1
        exact h1
    have hxcaT : ca - (ca - 12) < width t := by
      rw [hTw]
      omega
    have hCany2 : (colsMask thr t).any id = true := by
      have h1 := hCt (ca - (ca - 12)) (by omega) (by omega)
      have h2 : (ca - 12) + (ca - (ca - 12)) = ca := by omega
      have h3 : (colsMask thr img)[(ca - 12) + (ca - (ca - 12))] = true :=
        (getElem_idx_congr _ _ _ h2 (by omega) (by omega)).trans hCca
      rw [h3] at h1
      exact any_of_get _ _ (by omega) h1
    have hca2 : argmaxB (colsMask thr t) = ca - (ca - 12) := by
      refine argmax_char _ hCany2 _ (by omega) ?_ ?_
      · have h1 := hCt (ca - (ca - 12)) (by omega) (by omega)
        have h2 : (ca - 12) + (ca - (ca - 12)) = ca := by omega
        have h3 : (colsMask thr img)[(ca - 12) + (ca - (ca - 12))] = true :=
          (getElem_idx_congr _ _ _ h2 (by omega) (by omega)).trans hCca
        rw [h3] at h1
        exact h1
      · intro j hj hlt
        have hjT : j < width t := by omega
        have h1 := hCt j (by omega) (by omega)
        have h2 := hCbefore ((ca - 12) + j) (by omega) (by omega)
        rw [h2] at h1
        exact h1
    have hcb2 : npLastTrue (colsMask thr t) = cb - (ca - 12) := by
      refine np_char _ hCany2 _ (by omega) (by omega) ?_ ?_
      · have hxT : cb - (ca - 12) - 1 < width t := by
          rw [hTw]
          omega
        have h1 := hCt (cb - (ca - 12) - 1) (by omega) (by omega)
        have h2 : (ca - 12) + (cb - (ca - 12) - 1) = cb - 1 := by omega
        have h3 : (colsMask thr img)[(ca - 12) + (cb - (ca - 12) - 1)] = true :=
          (getElem_idx_congr _ _ _ h2 (by omega) (by omega)).trans hCcb
        rw [h3] at h1
        exact h1
      · intro j hj hge
        have hjT : j < width t := by omega
        have h1 := hCt j (by omega) (by rw [hTw] at hjT; omega)
        have h2 := hCafter ((ca - 12) + j) (by rw [hTw] at hjT; omega) (by omega)
        rw [h2] at h1
        exact h1
    -- assemble the second application
    unfold _trim_whitespace_dim
    rw [hAny2]
    rw [if_neg (by simp)]
    rw [ha2, hb2, hca2, hcb2]
    have hterw : height t = t.length := rfl
    have e1 : a - (a - 12) - 12 = 0 := by omega
    have e2 : min (height t) (b - (a - 12) + 12) = height t := by
      rw [hterw, hTh]
      omega
    have e3 : ca - (ca - 12) - 12 = 0 := by omega
    have e4 : min (width t) (cb - (ca - 12) + 12) = width t := by
      rw [hTw]
      omega
    rw [e1, e2, e3, e4]
    have hfull := cropZ_full t hTrowlen
    rw [hfull]
    have hcond : 20 < width t ∧ 20 < height t := by
      constructor
      · rw [hteq]
        exact hsz.1
      · rw [hteq]
        exact hsz.2
    unfold trimDimCheck
    rw [if_pos hcond]


/-! ### Leftmost-match facts about the regex scan -/

/-- A successful searchFrom scan found its match at the first offset where
the matcher succeeds. -/
theorem searchFrom_found (f : ℕ → Option RegMatch) :
    ∀ (fuel i : ℕ) (m : RegMatch), searchFrom f i fuel = some m →
      ∃ k, i ≤ k ∧ f k = some m ∧ ∀ j, i ≤ j → j < k → f j = none := by
  intro fuel
  induction fuel with
  | zero =>
    intro i m h
    simp [searchFrom] at h
  | succ n ih =>
    intro i m h
    unfold searchFrom at h
    cases hf : f i with
    | some m2 =>
      rw [hf] at h
      refine ⟨i, Nat.le_refl i, ?_, ?_⟩
      · rw [hf]
        exact h
      · intro j hj1 hj2
        omega
    | none =>
      rw [hf] at h
      rcases ih (i + 1) m h with ⟨k, hk1, hk2, hk3⟩
      refine ⟨k, by omega, hk2, ?_⟩
      intro j hj1 hj2
      by_cases hji : j = i
      · rw [hji]
        exact hf
      · exact hk3 j (by omega) hj2

/-- The symbol matcher reports the offset it was tried at. -/
theorem symbolMatchAt_start (sym text : List Char) (i : ℕ) (m : RegMatch)
    (h : symbolMatchAt sym text i = some m) : m.start = i := by
  unfold symbolMatchAt at h
  dsimp only at h
  repeat' split at h
  all_goals first
    | (injection h with h2
       rw [← h2])
    | injection h

/-- The label matcher reports the offset it was tried at. -/
theorem labelMatchAt_start (text : List Char) (i : ℕ) (m : RegMatch)
    (h : labelMatchAt text i = some m) : m.start = i := by
  unfold labelMatchAt at h
  dsimp only at h
  repeat' split at h
  all_goals first
    | (injection h with h2
       rw [← h2])
    | injection h

/-- The mode matcher reports the offset it was tried at. -/
theorem matchAtMode_start (isSym : Bool) (sym text : List Char) (i : ℕ) (m : RegMatch)
    (h : matchAtMode isSym sym text i = some m) : m.start = i := by
  cases isSym with
  | true =>
    unfold matchAtMode at h
    rw [if_pos rfl] at h
    exact symbolMatchAt_start sym text i m h
  | false =>
    unfold matchAtMode at h
    rw [if_neg (by simp)] at h
    exact labelMatchAt_start text i m h

/-- The compiled-pattern search is the scan of the mode matcher. -/
theorem searchMode_eq_scan (isSym : Bool) (sym text : List Char) :
    searchMode isSym sym text =
      searchFrom (matchAtMode isSym sym text) 0 (text.length + 1) := by
  cases isSym with
  | true =>
    unfold searchMode symbolSearch matchAtMode
    rfl
  | false =>
    unfold searchMode labelSearch matchAtMode
    rfl

/-- A successful pattern search found the leftmost match. -/
theorem searchMode_leftmost (isSym : Bool) (sym text : List Char) (m : RegMatch)
    (h : searchMode isSym sym text = some m) :
    matchAtMode isSym sym text m.start = some m ∧
      ∀ j, j < m.start → matchAtMode isSym sym text j = none := by
  rw [searchMode_eq_scan] at h
  rcases searchFrom_found _ _ _ _ h with ⟨k, _, hk2, hk3⟩
  have hs : m.start = k := matchAtMode_start isSym sym text k m hk2
  constructor
  · rw [hs]
    exact hk2
  · intro j hj
    rw [hs] at hj
    exact hk3 j (Nat.zero_le j) hj

/-- C10 (amended): the span loop rewrites at most one price occurrence per
span: when a span is rewritten, the rewritten token is the leftmost pattern
match in the span text (no earlier offset matches), its parsed value passes
the minimum-price threshold, and everything outside that single match —
including any later price matches — is reinserted verbatim around the
converted value.  (When the leftmost match fails to parse or parses below
10, the span is left entirely untouched, even if a later match would
qualify.) -/
theorem claim10_first_match_only :
    ∀ (isSym : Bool) (sym : List Char) (mult : ℚ) (toCur : List Char) (sp : Span)
      (r : RedRec), processSpan isSym sym mult toCur sp = some r →
      ∃ m v, searchMode isSym sym sp.text = some m ∧
        matchAtMode isSym sym sp.text m.start = some m ∧
        (∀ j, j < m.start → matchAtMode isSym sym sp.text j = none) ∧
        _parse_price m.token = some v ∧ 10 ≤ v ∧
        r.newText = sp.text.take m.start ++ toCur ++ ' ' ::
          fmtComma (v * mult) ++ sp.text.drop m.stop := by
  intro isSym sym mult toCur sp r h
  unfold processSpan at h
  cases hm : searchMode isSym sym sp.text with
  | none =>
    rw [hm] at h
    cases h
  | some m =>
    rw [hm] at h
    dsimp only at h
    cases hp : _parse_price m.token with
    | none =>
      rw [hp] at h
      cases h
    | some v =>
      rw [hp] at h
      dsimp only at h
      by_cases hv : v < 10
      · rw [if_pos hv] at h
        cases h
      · rw [if_neg hv] at h
        rcases searchMode_leftmost isSym sym sp.text m hm with ⟨hat, hleft⟩
        refine ⟨m, v, rfl, hat, hleft, hp, le_of_not_lt hv, ?_⟩
        injection h with h2
        rw [← h2]

set_option maxHeartbeats 1600000 in
/-- C5 (confirmed): within a processed page, the searched price match of a
span is rewritten if and only if its token parses to a numeric value of at
least 10; a failing or under-threshold match leaves the span untouched and
the remaining spans are processed unaffected.  In particular a bare label
mode number 5 is never rewritten, while 1234.50 is. -/
theorem claim5_threshold_gate :
    (∀ (isSym : Bool) (sym : List Char) (mult : ℚ) (toCur : List Char) (sp : Span),
      (processSpan isSym sym mult toCur sp).isSome = true ↔
        ∃ m, searchMode isSym sym sp.text = some m ∧
          ∃ v, _parse_price m.token = some v ∧ 10 ≤ v) ∧
    (∀ (isSym : Bool) (sym : List Char) (mult : ℚ) (toCur : List Char) (sp : Span)
      (ft : List Char) (rest : List Span),
      processSpan isSym sym mult toCur sp = none →
        pageRedactions isSym sym mult toCur ⟨ft, sp :: rest⟩ =
          pageRedactions isSym sym mult toCur ⟨ft, rest⟩) ∧
    (∀ (mult : ℚ) (toCur : List Char) (bb : Rect) (fs : ℚ) (col : ℕ) (sym : List Char),
      processSpan false sym mult toCur ⟨"5".toList, bb, fs, col⟩ = none) ∧
    (processSpan false [] 2 ("$".toList)
      ⟨"1234.50".toList, ⟨0, 0, 1, 1⟩, 10, 0⟩).isSome = true := by
  refine ⟨?_, ?_, ?_, ?_⟩
  · intro isSym sym mult toCur sp
    unfold processSpan
    cases hm : searchMode isSym sym sp.text with
    | none =>
      simp
    | some m =>
      dsimp only
      cases hp : _parse_price m.token with
      | none =>
        simp [hp]
      | some v =>
        dsimp only
        by_cases hv : v < 10
        · rw [if_pos hv]
          constructor
          · intro hfalse
            exact absurd hfalse (by simp)
          · rintro ⟨m2, hm2, v2, hv2, hge⟩
            have hmm : m2 = m := by
              injection hm2 with h3
              rw [h3]
            rw [hmm, hp] at hv2
            injection hv2 with h4
            rw [← h4] at hge
            exact absurd hge (not_le.mpr hv)
        · rw [if_neg hv]
          simp only [Option.isSome_some, true_iff]
          exact ⟨m, rfl, v, hp, le_of_not_lt hv⟩
  · intro isSym sym mult toCur sp ft rest h
    unfold pageRedactions
    dsimp only
    rw [List.filterMap_cons, h]
  · intro mult toCur bb fs col sym
    rfl
  · decide

/-- Index shape of a page trace: insertions sit past the apply marker,
redaction fills sit before it. -/
theorem ops_order (reds : List RedRec) :
    ∀ (i j : ℕ)
      (hi : i < (reds.map (fun r => PageOp.addRedact r.bbox) ++ [PageOp.applyRedactions] ++
        reds.map (fun r => PageOp.insertText (r.bbox.x0, r.bbox.y0 + r.size * (85/100))
          r.newText r.size r.rgb)).length)
      (hj : j < (reds.map (fun r => PageOp.addRedact r.bbox) ++ [PageOp.applyRedactions] ++
        reds.map (fun r => PageOp.insertText (r.bbox.x0, r.bbox.y0 + r.size * (85/100))
          r.newText r.size r.rgb)).length),
      ((reds.map (fun r => PageOp.addRedact r.bbox) ++ [PageOp.applyRedactions] ++
        reds.map (fun r => PageOp.insertText (r.bbox.x0, r.bbox.y0 + r.size * (85/100))
          r.newText r.size r.rgb))[i]).isInsert = true →
      ((reds.map (fun r => PageOp.addRedact r.bbox) ++ [PageOp.applyRedactions] ++
        reds.map (fun r => PageOp.insertText (r.bbox.x0, r.bbox.y0 + r.size * (85/100))
          r.newText r.size r.rgb))[j]).isAddRedact = true →
      j < i := by
  intro i j hi hj hins hred
  set A := reds.map (fun r => PageOp.addRedact r.bbox) with hA
  set B := reds.map (fun r =>
    PageOp.insertText (r.bbox.x0, r.bbox.y0 + r.size * (85/100)) r.newText r.size r.rgb)
    with hB
  have hAlen : A.length = reds.length := by rw [hA, List.length_map]
  have hBlen : B.length = reds.length := by rw [hB, List.length_map]
  have hABlen : (A ++ [PageOp.applyRedactions]).length = reds.length + 1 := by
    rw [List.length_append, hAlen]
    rfl
  have hlen : (A ++ [PageOp.applyRedactions] ++ B).length = reds.length + 1 + reds.length := by
    rw [List.length_append, hABlen, hBlen]
  have hq : ∀ k, ∀ hk : k < (A ++ [PageOp.applyRedactions] ++ B).length,
      (k < reds.length →
        ((A ++ [PageOp.applyRedactions] ++ B)[k]).isInsert = false ∧
        ((A ++ [PageOp.applyRedactions] ++ B)[k]).isAddRedact = true) ∧
      (k = reds.length →
        ((A ++ [PageOp.applyRedactions] ++ B)[k]).isInsert = false ∧
        ((A ++ [PageOp.applyRedactions] ++ B)[k]).isAddRedact = false) ∧
      (reds.length + 1 ≤ k →
        ((A ++ [PageOp.applyRedactions] ++ B)[k]).isInsert = true ∧
        ((A ++ [PageOp.applyRedactions] ++ B)[k]).isAddRedact = false) := by
    intro k hk
    have hsome : ((A ++ [PageOp.applyRedactions] ++ B)[k]?) =
        some ((A ++ [PageOp.applyRedactions] ++ B)[k]) := List.getElem?_eq_getElem hk
    refine ⟨?_, ?_, ?_⟩
    · intro hklt
      have h1 : ((A ++ [PageOp.applyRedactions] ++ B)[k]?) = (A ++ [PageOp.applyRedactions])[k]? :=
        List.getElem?_append_left (by omega)
      have h2 : ((A ++ [PageOp.applyRedactions])[k]?) = A[k]? :=
        List.getElem?_append_left (by omega)
      have h3 : A[k]? = (reds[k]?).map (fun r => PageOp.addRedact r.bbox) := by
        rw [hA, List.getElem?_map]
      have h4 : reds[k]? = some (reds[k]) := List.getElem?_eq_getElem (by omega)
      rw [h1, h2, h3, h4, Option.map_some'] at hsome
      have helem := Option.some.inj hsome
      rw [← helem]
      exact ⟨rfl, rfl⟩
    · intro hkeq
      have h1 : ((A ++ [PageOp.applyRedactions] ++ B)[k]?) = (A ++ [PageOp.applyRedactions])[k]? :=
        List.getElem?_append_left (by omega)
      have h2 : ((A ++ [PageOp.applyRedactions])[k]?) = [PageOp.applyRedactions][k - A.length]? :=
        List.getElem?_append_right (by omega)
      have h3 : [PageOp.applyRedactions][k - A.length]? = some PageOp.applyRedactions := by
        have hzero : k - A.length = 0 := by omega
        rw [hzero]
        rfl
      rw [h1, h2, h3] at hsome
      have helem := Option.some.inj hsome
      rw [← helem]
      exact ⟨rfl, rfl⟩
    · intro hkge
      have h1 : ((A ++ [PageOp.applyRedactions] ++ B)[k]?) =
          B[k - (A ++ [PageOp.applyRedactions]).length]? :=
        List.getElem?_append_right (by omega)
      have h2 : B[k - (A ++ [PageOp.applyRedactions]).length]? =
          (reds[k - (A ++ [PageOp.applyRedactions]).length]?).map
            (fun r => PageOp.insertText (r.bbox.x0, r.bbox.y0 + r.size * (85/100))
              r.newText r.size r.rgb) := by
        rw [hB, List.getElem?_map]
      have h4 : reds[k - (A ++ [PageOp.applyRedactions]).length]? =
          some (reds[k - (A ++ [PageOp.applyRedactions]).length]) :=
        List.getElem?_eq_getElem (by omega)
      rw [h1, h2, h4, Option.map_some'] at hsome
      have helem := Option.some.inj hsome
      rw [← helem]
      exact ⟨rfl, rfl⟩
  by_contra hc
  rcases Nat.lt_trichotomy i reds.length with hilt | hieq | higt
  · have := ((hq i hi).1 hilt).1
    rw [hins] at this
    exact absurd this (by simp)
  · have := ((hq i hi).2.1 hieq).1
    rw [hins] at this
    exact absurd this (by simp)
  · rcases Nat.lt_trichotomy j reds.length with hjlt | hjeq | hjgt
    · omega
    · have := ((hq j hj).2.1 hjeq).2
      rw [hred] at this
      exact absurd this (by simp)
    · have := ((hq j hj).2.2 (by omega)).2
      rw [hred] at this
      exact absurd this (by simp)

/-- C4 (confirmed): on every page trace of convert_prices, every redaction
fill precedes every text insertion: if position i holds an insertion and
position j holds a redaction fill of the same page trace, then j comes
strictly before i (all redactions are batched, then applied, then the
replacement text is inserted). -/
theorem claim4_redactions_before_insertions :
    ∀ (fc : List Char) (mult : ℚ) (toCur : List Char) (page : PageC) (i j : ℕ)
      (hi : i < (convertPageOps fc mult toCur page).length)
      (hj : j < (convertPageOps fc mult toCur page).length),
      ((convertPageOps fc mult toCur page).get ⟨i, hi⟩).isInsert = true →
      ((convertPageOps fc mult toCur page).get ⟨j, hj⟩).isAddRedact = true →
      j < i := by
  intro fc mult toCur page i j hi hj hins hred
  rw [List.get_eq_getElem] at hins hred
  have hshape : convertPageOps fc mult toCur page = [] ∨
      convertPageOps fc mult toCur page =
        (pageRedactions (isSymbolMode fc) (pyStrip fc) mult toCur page).map
            (fun r => PageOp.addRedact r.bbox) ++ [PageOp.applyRedactions] ++
          (pageRedactions (isSymbolMode fc) (pyStrip fc) mult toCur page).map
            (fun r => PageOp.insertText (r.bbox.x0, r.bbox.y0 + r.size * (85/100))
              r.newText r.size r.rgb) := by
    unfold convertPageOps
    dsimp only
    split
    · exact Or.inl rfl
    · exact Or.inr rfl
  rcases hshape with hnil | hcat
  · exfalso
    have hlen0 : (convertPageOps fc mult toCur page).length = 0 := by rw [hnil]; rfl
    omega
  · have hi2 : i < ((pageRedactions (isSymbolMode fc) (pyStrip fc) mult toCur page).map
        (fun r => PageOp.addRedact r.bbox) ++ [PageOp.applyRedactions] ++
        (pageRedactions (isSymbolMode fc) (pyStrip fc) mult toCur page).map
          (fun r => PageOp.insertText (r.bbox.x0, r.bbox.y0 + r.size * (85/100))
            r.newText r.size r.rgb)).length := by
      rw [← hcat]
      exact hi
    have hj2 : j < ((pageRedactions (isSymbolMode fc) (pyStrip fc) mult toCur page).map
        (fun r => PageOp.addRedact r.bbox) ++ [PageOp.applyRedactions] ++
        (pageRedactions (isSymbolMode fc) (pyStrip fc) mult toCur page).map
          (fun r => PageOp.insertText (r.bbox.x0, r.bbox.y0 + r.size * (85/100))
            r.newText r.size r.rgb)).length := by
      rw [← hcat]
      exact hj
    have hins2 := (congrArg PageOp.isInsert (List.getElem_of_eq hcat hi)).symm.trans hins
    have hred2 := (congrArg PageOp.isAddRedact (List.getElem_of_eq hcat hj)).symm.trans hred
    exact ops_order (pageRedactions (isSymbolMode fc) (pyStrip fc) mult toCur page)
      i j hi2 hj2 hins2 hred2

/-- C8 (confirmed): in label mode, a page whose extracted text does not
contain the label (case-insensitively) is left entirely unchanged: the page
trace of convert_prices is empty, so no redaction is applied and no text is
inserted for any of its spans. -/
theorem claim8_label_page_skipped (fc : List Char) (mult : ℚ) (toCur : List Char)
    (page : PageC) (hmode : isSymbolMode fc = false)
    (habs : containsSub (upperL fc) (upperL page.fullText) = false) :
    convertPageOps fc mult toCur page = [] := by
  unfold convertPageOps
  rw [hmode, habs]
  rfl

/-- C6 (confirmed): _parse_price resolves the three numeric conventions in
priority order by regex shape: the European dot-thousands comma-decimal shape
parses with dots removed and the comma as decimal point (also without a
fractional part, taking priority over the fallback), the comma-decimal shape
parses with the comma as decimal point, anything else parses after stripping
commas, and a string that still fails float parsing yields none. -/
theorem claim6_parse_conventions :
    _parse_price "1.234,50".toList = some (2469 / 2) ∧
    _parse_price "14469,00".toList = some 14469 ∧
    _parse_price "1234.50".toList = some (2469 / 2) ∧
    _parse_price "1.234".toList = some 1234 ∧
    _parse_price "12 34".toList = none := by
  refine ⟨by decide, by decide, by decide, by decide, by decide⟩

/-! ### Membership facts about the rectangle locator -/

theorem mem_insByY (r x : Rect) (l : List Rect) (h : x ∈ insByY r l) :
    x = r ∨ x ∈ l := by
  induction l with
  | nil =>
    simp [insByY] at h
    exact Or.inl h
  | cons a t ih =>
    unfold insByY at h
    by_cases hc : a.y0 ≤ r.y0
    · rw [if_pos hc] at h
      rcases List.mem_cons.mp h with hx | hx
      · exact Or.inr (List.mem_cons.mpr (Or.inl hx))
      · rcases ih hx with h2 | h2
        · exact Or.inl h2
        · exact Or.inr (List.mem_cons.mpr (Or.inr h2))
    · rw [if_neg hc] at h
      rcases List.mem_cons.mp h with hx | hx
      · exact Or.inl hx
      · exact Or.inr hx

theorem mem_sortByY (x : Rect) (l : List Rect) (h : x ∈ sortByY l) : x ∈ l := by
  induction l with
  | nil => simpa [sortByY] using h
  | cons a t ih =>
    unfold sortByY at h
    rcases mem_insByY a x (sortByY t) h with h2 | h2
    · rw [h2]
      exact List.mem_cons_self a t
    · exact List.mem_cons.mpr (Or.inr (ih h2))

theorem minByArea_mem (c : Rect) (cs : List Rect) : minByArea c cs ∈ c :: cs := by
  induction cs generalizing c with
  | nil => simp [minByArea]
  | cons d ds ih =>
    unfold minByArea
    rw [List.foldl_cons]
    by_cases hc : d.w * d.h < c.w * c.h
    · rw [if_pos hc]
      have h2 := ih d
      unfold minByArea at h2
      rcases List.mem_cons.mp h2 with h3 | h3
      · rw [h3]
        simp
      · right
        right
        exact h3
    · rw [if_neg hc]
      have h2 := ih c
      unfold minByArea at h2
      rcases List.mem_cons.mp h2 with h3 | h3
      · rw [h3]
        simp
      · right
        right
        exact h3

theorem anchorLoop_sub (pool : List Rect) (pts : List (ℚ × ℚ)) (seen : List (ℤ × ℤ))
    (x : Rect) (h : x ∈ anchorLoop pool pts seen) : x ∈ pool := by
  induction pts generalizing seen with
  | nil => simp [anchorLoop] at h
  | cons pt rest ih =>
    unfold anchorLoop at h
    cases hfil : pool.filter fun r =>
        decide (r.x0 ≤ pt.1) && decide (pt.1 ≤ r.x1) &&
        decide (r.y0 ≤ pt.2) && decide (pt.2 ≤ r.y1) with
    | nil =>
      rw [hfil] at h
      exact ih seen h
    | cons c cs =>
      rw [hfil] at h
      dsimp only at h
      by_cases hseen : seen.any (fun k => k = (pyRound (minByArea c cs).x0,
          pyRound (minByArea c cs).y0)) = true
      · rw [if_pos hseen] at h
        exact ih seen h
      · rw [if_neg hseen] at h
        rcases List.mem_cons.mp h with h2 | h2
        · have h3 : x ∈ c :: cs := by
            rw [h2]
            exact minByArea_mem c cs
          have h4 : x ∈ pool.filter fun r =>
              decide (r.x0 ≤ pt.1) && decide (pt.1 ≤ r.x1) &&
              decide (r.y0 ≤ pt.2) && decide (pt.2 ≤ r.y1) := by
            rw [hfil]
            exact h3
          exact List.mem_of_mem_filter h4
        · exact ih _ h2

theorem findDrawingRects_sub (page : PageData) (x : Rect)
    (h : x ∈ _find_drawing_rects page) : x ∈ rectPool page := by
  unfold _find_drawing_rects at h
  dsimp only at h
  by_cases h1 : (rectPool page).isEmpty = true
  · rw [if_pos h1] at h
    simp at h
  · rw [if_neg h1] at h
    by_cases h2 : (((page.spans.filter fun s => hasDiam s.text).map
        fun s => ((s.bbox.1 + s.bbox.2.2.1) / 2, (s.bbox.2.1 + s.bbox.2.2.2) / 2)).isEmpty) = true
    · rw [if_neg (by rw [h2]; simp)] at h
      exact mem_sortByY x _ (List.take_subset 2 _ h)
    · have h2f : (((page.spans.filter fun s => hasDiam s.text).map
          fun s => ((s.bbox.1 + s.bbox.2.2.1) / 2, (s.bbox.2.1 + s.bbox.2.2.2) / 2)).isEmpty) = false := by
        simp only [Bool.not_eq_true] at h2
        exact h2
      rw [if_pos (by rw [h2f]; rfl)] at h
      by_cases h3 : ((anchorLoop (rectPool page) ((page.spans.filter fun s => hasDiam s.text).map
          fun s => ((s.bbox.1 + s.bbox.2.2.1) / 2, (s.bbox.2.1 + s.bbox.2.2.2) / 2)) []).isEmpty) = true
      · rw [if_neg (by rw [h3]; simp)] at h
        exact mem_sortByY x _ (List.take_subset 2 _ h)
      · have h3f : ((anchorLoop (rectPool page) ((page.spans.filter fun s => hasDiam s.text).map
            fun s => ((s.bbox.1 + s.bbox.2.2.1) / 2, (s.bbox.2.1 + s.bbox.2.2.2) / 2)) []).isEmpty) = false := by
          simp only [Bool.not_eq_true] at h3
          exact h3
        rw [if_pos (by rw [h3f]; rfl)] at h
        have h4 := mem_sortByY x _ (List.take_subset 2 _ h)
        exact anchorLoop_sub _ _ _ x h4

/-- C3 (corrected): a resolved candidate rectangle survives the filter of
_find_drawing_rects if and only if its width is at least 8 percent of the
page width, its height at least 8 percent of the page height, and its right
edge x1 — not its width — does not pass 58 percent of the page width (for a
positive page size and a non-infinite rectangle); consequently every
rectangle the locator returns satisfies these bounds, so a full-width outer
border (right edge at 90 percent of the page width) is never returned, while
a box of 40 percent page width lying in the left half passes the filter. -/
theorem claim3_filter_amended :
    (∀ (pw ph : ℚ) (r : Rect), 0 < pw → 0 < ph → r.isInfinite = false →
      (surviveRect r pw ph = true ↔
        (pw * (8/100) ≤ r.w ∧ ph * (8/100) ≤ r.h ∧ r.x1 ≤ pw * (58/100)))) ∧
    (∀ (page : PageData) (r : Rect), r ∈ _find_drawing_rects page →
      surviveRect r page.pw page.ph = true) := by
  constructor
  · intro pw ph r hpw hph hinf
    unfold surviveRect
    rw [hinf]
    constructor
    · intro hs
      by_cases h1 : r.isEmpty = true
      · rw [h1] at hs
        simp at hs
      · rw [Bool.not_eq_true] at h1
        rw [h1] at hs
        simp only [Bool.or_false, Bool.false_eq_true, if_false] at hs
        by_cases h2 : r.w < pw * (8/100) ∨ r.h < ph * (8/100)
        · rw [if_pos h2] at hs
          exact absurd hs (by simp)
        · rw [if_neg h2] at hs
          by_cases h3 : r.x1 > pw * (58/100)
          · rw [if_pos h3] at hs
            exact absurd hs (by simp)
          · push_neg at h2 h3
            exact ⟨h2.1, h2.2, h3⟩
    · rintro ⟨hw8, hh8, hx58⟩
      have hwpos : 0 < r.w := lt_of_lt_of_le (by positivity) hw8
      have hhpos : 0 < r.h := lt_of_lt_of_le (by positivity) hh8
      have hempty : r.isEmpty = false := by
        unfold Rect.isEmpty
        unfold Rect.w at hwpos
        unfold Rect.h at hhpos
        simp only [Bool.or_eq_false_iff, decide_eq_false_iff_not, not_le]
        constructor
        · linarith
        · linarith
      rw [hempty]
      simp only [Bool.or_false, Bool.false_eq_true, if_false]
      rw [if_neg (by push_neg; exact ⟨hw8, hh8⟩)]
      rw [if_neg (by push_neg; exact hx58)]
  · intro page r h
    have h2 := findDrawingRects_sub page r h
    unfold rectPool at h2
    exact List.of_mem_filter (p := fun r => surviveRect r page.pw page.ph) h2

/-- C1 (amended, corrected): the orchestrator never extracts embedded raster
images; the illustrations ('product') list of extract_page_images is empty
for every page and every AI-service outcome — real-life product photos are
uploaded manually, so the embedded raster is never returned. -/
theorem claim1_product_always_empty :
    ∀ (page : PageData) (ai : Option (List AiBox)),
      (extract_page_images page ai).product = [] := by
  intro page ai
  have hz : (extractZone page).product = [] := rfl
  have hv : (extractVectorZone page).product = [] := by
    unfold extractVectorZone
    split
    · exact hz
    · rfl
  cases ai with
  | none => exact hv
  | some boxes =>
    unfold extract_page_images
    dsimp only
    by_cases h1 : boxes.isEmpty = true
    · rw [if_pos h1]
      exact hv
    · rw [if_neg h1]
      split
      · exact hv
      · rfl

/-- Sizes of a successful dimension trim exceed 20 pixels a side. -/
theorem trimDim_size (img : Img) (thr : ℕ) (t : Img)
    (h : _trim_whitespace_dim img thr = some t) :
    20 < width t ∧ 20 < height t := by
  unfold _trim_whitespace_dim at h
  by_cases hA : ((!(rowsMask thr img).any id) = true)
  · rw [if_pos hA] at h
    cases h
  · rw [if_neg hA] at h
    unfold trimDimCheck at h
    by_cases hsz : 20 < width (cropZ ((argmaxB (colsMask thr img) - 12 : ℕ) : ℤ)
        ((argmaxB (rowsMask thr img) - 12 : ℕ) : ℤ)
        ((min (width img) (npLastTrue (colsMask thr img) + 12) : ℕ) : ℤ)
        ((min (height img) (npLastTrue (rowsMask thr img) + 12) : ℕ) : ℤ) img) ∧
      20 < height (cropZ ((argmaxB (colsMask thr img) - 12 : ℕ) : ℤ)
        ((argmaxB (rowsMask thr img) - 12 : ℕ) : ℤ)
        ((min (width img) (npLastTrue (colsMask thr img) + 12) : ℕ) : ℤ)
        ((min (height img) (npLastTrue (rowsMask thr img) + 12) : ℕ) : ℤ) img)
    · rw [if_pos hsz] at h
      injection h with h2
      rw [← h2]
      exact hsz
    · rw [if_neg hsz] at h
      cases h

/-- Sizes of every zone-strategy dimension crop exceed 20 pixels a side. -/
theorem zone_dims_size (page : PageData) (im : Img)
    (h : im ∈ (extractZone page).dim) : 20 < width im ∧ 20 < height im := by
  unfold extractZone at h
  dsimp only at h
  rcases List.mem_filterMap.mp h with ⟨r, hr, hsome⟩
  exact trimDim_size r 248 im hsome

/-- Sizes of every vector-strategy dimension crop exceed 40 pixels a side. -/
theorem vector_dims_size (page : PageData) (im : Img)
    (h : im ∈ vectorDims page) : 40 < width im ∧ 40 < height im := by
  unfold vectorDims at h
  dsimp only at h
  rcases List.mem_filterMap.mp h with ⟨r, hr, hsome⟩
  revert hsome
  split
  · intro hsome
    injection hsome with h2
    rw [← h2]
    assumption
  · intro hsome
    cases hsome

/-- Sizes of every AI-strategy dimension crop exceed 30 pixels a side. -/
theorem ai_dims_size (boxes : List AiBox) (full : Img) (im : Img)
    (h : im ∈ aiCropDims boxes full) : 30 < width im ∧ 30 < height im := by
  unfold aiCropDims at h
  dsimp only at h
  rcases List.mem_filterMap.mp h with ⟨b, hb, hsome⟩
  revert hsome
  split
  · intro hsome
    injection hsome with h2
    rw [← h2]
    assumption
  · intro hsome
    cases hsome

/-- C9 (confirmed): every region in the dimension list of
extract_page_images — whichever strategy produced it — has width and height
strictly greater than 20 pixels; smaller crops are discarded, never
returned. -/
theorem claim9_dim_min_size :
    ∀ (page : PageData) (ai : Option (List AiBox)),
      ((extract_page_images page ai).dim.all fun im =>
        decide (20 < width im) && decide (20 < height im)) = true := by
  intro page ai
  have hboolify : ∀ (l : List Img), (∀ im ∈ l, 20 < width im ∧ 20 < height im) →
      (l.all fun im => decide (20 < width im) && decide (20 < height im)) = true := by
    intro l hl
    refine List.all_eq_true.mpr ?_
    intro im hmem
    rcases hl im hmem with ⟨h1, h2⟩
    simp [h1, h2]
  have hz : ((extractZone page).dim.all fun im =>
      decide (20 < width im) && decide (20 < height im)) = true := by
    refine hboolify _ ?_
    intro im hmem
    exact zone_dims_size page im hmem
  have hv : ((extractVectorZone page).dim.all fun im =>
      decide (20 < width im) && decide (20 < height im)) = true := by
    unfold extractVectorZone
    split
    · exact hz
    · refine hboolify _ ?_
      intro im hmem
      rcases vector_dims_size page im hmem with ⟨h1, h2⟩
      exact ⟨by omega, by omega⟩
  cases ai with
  | none => exact hv
  | some boxes =>
    unfold extract_page_images
    dsimp only
    by_cases h1 : boxes.isEmpty = true
    · rw [if_pos h1]
      exact hv
    · rw [if_neg h1]
      split
      · exact hv
      · refine hboolify _ ?_
        intro im hmem
        rcases ai_dims_size boxes page.full im hmem with ⟨h2, h3⟩
        exact ⟨by omega, by omega⟩

/-- C2 (amended, corrected): render_single_page clamps an out-of-range page
index to the last page: for a nonempty document and any index at or past the
page count it returns the same successful render as for the last page — the
caller receives a bitmap, not a raised failure, and cannot distinguish the
out-of-range request from a request for the last page. -/
theorem claim2_clamps_to_last_page :
    ∀ (doc : List PageR) (i dpi : ℕ), 0 < doc.length → doc.length ≤ i →
      render_single_page doc i dpi = render_single_page doc (doc.length - 1) dpi ∧
      ∃ img, render_single_page doc i dpi = Except.ok img := by
  intro doc i dpi hpos hle
  cases doc with
  | nil => simp at hpos
  | cons p ps =>
    unfold render_single_page
    dsimp only
    have h1 : min i ps.length = ps.length := by
      simp only [List.length_cons] at hle
      omega
    have h2 : min ((p :: ps).length - 1) ps.length = ps.length := by
      simp
    rw [h1, h2]
    exact ⟨rfl, _, rfl⟩

/-- Witness for C1: a one-page document with an embedded 200 by 200 raster
image and no vector rectangle paths yields an empty product list — the
embedded raster is not returned as the sole illustration, contradicting the
original claim. -/
theorem claim1_cex :
    (extract_page_images c1page none).product = [] ∧
    c1page.embedded.length = 1 ∧ c1page.drawings = [] := by
  refine ⟨by decide, by decide, by decide⟩

/-- Witness for C2: a concrete one-page document and the out-of-range index
5, for which the renderer clamps and succeeds. -/
theorem claim2_witness :
    0 < c2doc.length ∧ c2doc.length ≤ 5 ∧
    (render_single_page c2doc 5 100 = render_single_page c2doc (c2doc.length - 1) 100 ∧
      ∃ img, render_single_page c2doc 5 100 = Except.ok img) :=
  ⟨by decide, by decide, claim2_clamps_to_last_page c2doc 5 100 (by decide) (by decide)⟩

/-- Counterexample to C2 as stated: the out-of-range index 5 on a one-page
document renders successfully instead of propagating a failure. -/
theorem claim2_cex :
    isOkE (render_single_page c2doc 5 100) = true ∧ c2doc.length ≤ 5 := by
  exact ⟨rfl, by decide⟩

/-- Witness for C3: a box spanning 40 percent of the page width in the left
half of a 100 by 100 page survives the filter. -/
theorem claim3_witness :
    surviveRect ⟨5, 10, 45, 60⟩ 100 100 = true :=
  (claim3_filter_amended.1 100 100 ⟨5, 10, 45, 60⟩ (by decide) (by decide) (by decide)).mpr
    (by decide)

/-- Counterexample to C3 as stated: a rectangle of width 30 percent of the
page (all of the claim's conditions hold) whose right edge lies at 90
percent of the page width is dropped by the filter. -/
theorem claim3_cex :
    ((100 : ℚ) * (8/100) ≤ Rect.w ⟨60, 0, 90, 50⟩ ∧
      (100 : ℚ) * (8/100) ≤ Rect.h ⟨60, 0, 90, 50⟩ ∧
      Rect.w ⟨60, 0, 90, 50⟩ ≤ (100 : ℚ) * (58/100)) ∧
    surviveRect ⟨60, 0, 90, 50⟩ 100 100 = false := by
  refine ⟨⟨by decide, by decide, by decide⟩, by decide⟩

/-- Witness for C4: on a concrete page trace with one matched price, the
insertion at position 2 follows the redaction fill at position 0. -/
theorem claim4_witness :
    ((convertPageOps ("€".toList) 2 ("$".toList) c4page).get ⟨2, by decide⟩).isInsert = true ∧
    ((convertPageOps ("€".toList) 2 ("$".toList) c4page).get ⟨0, by decide⟩).isAddRedact = true ∧
    (0 : ℕ) < 2 :=
  ⟨by decide, by decide,
    claim4_redactions_before_insertions ("€".toList) 2 ("$".toList) c4page 2 0
      (by decide) (by decide) (by decide) (by decide)⟩

/-- Witness for C5: the span text with a symbol price of 149 is rewritten,
via the threshold iff applied at its concrete match and parsed value. -/
theorem claim5_witness :
    (processSpan true ("€".toList) 2 ("$".toList)
      ⟨"€149,00".toList, ⟨0, 0, 10, 10⟩, 10, 0⟩).isSome = true :=
  (claim5_threshold_gate.1 true ("€".toList) 2 ("$".toList)
    ⟨"€149,00".toList, ⟨0, 0, 10, 10⟩, 10, 0⟩).mpr
    ⟨⟨0, 7, "149,00".toList⟩, by decide, 149, by decide, by decide⟩

/-- Witness for C7: a uniform dark 25 by 25 bitmap is rectangular, trims to
itself, and the idempotence theorem confirms the second trim is fixed. -/
theorem claim7_witness :
    (g25.all fun row => decide (row.length = width g25)) = true ∧
    _trim_whitespace_dim g25 248 = some g25 ∧
    _trim_whitespace_dim g25 248 = some g25 :=
  ⟨by decide, by decide, trim_dim_idempotent g25 248 g25 (by decide) (by decide)⟩

set_option maxRecDepth 8000 in
set_option maxHeartbeats 1600000 in
/-- Counterexample to C7 as stated for the illustration variant: a uniform
light-gray 60 by 1 bitmap trims to its 41-row prefix, and trimming that
output again shrinks it further, so the illustration trimmer is not
idempotent. -/
theorem claim7_cex :
    _trim_whitespace gray60 245 = some gray41 ∧
    _trim_whitespace gray41 245 ≠ some gray41 := by
  refine ⟨by decide, by decide⟩

/-- Witness for C8: the label RMB, a page without it, and the resulting
empty page trace. -/
theorem claim8_witness :
    isSymbolMode ("RMB".toList) = false ∧
    containsSub (upperL ("RMB".toList)) (upperL c8page.fullText) = false ∧
    convertPageOps ("RMB".toList) 2 ("$".toList) c8page = [] :=
  ⟨by decide, by decide,
    claim8_label_page_skipped ("RMB".toList) 2 ("$".toList) c8page (by decide) (by decide)⟩

/-- Witness for C10: a span with two qualifying symbol prices rewrites only
the leftmost one and reinserts the rest of the text, second match included,
with its original value. -/
theorem claim10_witness :
    processSpan true ("€".toList) 2 ("$".toList) c10span = some c10red ∧
    ∃ m v, searchMode true ("€".toList) c10span.text = some m ∧
      matchAtMode true ("€".toList) c10span.text m.start = some m ∧
      (∀ j, j < m.start → matchAtMode true ("€".toList) c10span.text j = none) ∧
      _parse_price m.token = some v ∧ 10 ≤ v ∧
      c10red.newText = c10span.text.take m.start ++ ("$".toList) ++ ' ' ::
        fmtComma (v * 2) ++ c10span.text.drop m.stop :=
  ⟨by decide,
    claim10_first_match_only true ("€".toList) 2 ("$".toList) c10span c10red (by decide)⟩

/-- Counterexample to C10 as stated: a span with two pattern matches whose
first match parses below the threshold is left entirely unchanged — the
first match is not converted even though the claim says it is. -/
theorem claim10_cex :
    (symbolMatchAt ("€".toList) c10cexSpan.text 0).isSome = true ∧
    (symbolMatchAt ("€".toList) c10cexSpan.text 3).isSome = true ∧
    processSpan true ("€".toList) 2 ("$".toList) c10cexSpan = none := by
  refine ⟨by decide, by decide, by decide⟩
